import Mathlib

/-!
# Verification of the STAR-CCM+ batch-script template engine

A shallow embedding of `STARCCM+_BatchScript.py`: the template-instantiation
functions (`process_required_templates`, `process_custom_templates`,
`get_custom_templates`), the batch executor (`process_sim_command`) and the
output-folder helper (`CreatOutputFolder`), together with proofs about them.

Strings are embedded as `List Char`.  Python built-ins used by the script
(`str.replace`, `str` on integers, zero-padded `format`, `os.path.splitext`)
are modelled by executable Lean functions defined below; the file-system and
subprocess side effects are modelled by explicit state (the list of files
written so far) and by abstract oracles (`writeFails`, job outcomes).
-/

/-- Python strings are embedded as lists of characters. -/
abbrev Str := List Char

/-- A cell value coming from the Excel parameter table: the script only ever
turns these into text with Python's `str`, so we keep integers and strings. -/
inductive PyValue
  | int (n : Int)
  | str (s : Str)
deriving DecidableEq

/-- The decimal digit characters. Model of the digits produced by Python's
`str` on a nonnegative integer (one digit position). -/
def digitChar10 (d : Nat) : Char :=
  match d with
  | 0 => '0' | 1 => '1' | 2 => '2' | 3 => '3' | 4 => '4'
  | 5 => '5' | 6 => '6' | 7 => '7' | 8 => '8' | 9 => '9'
  | _ => '?'

/-- Big-endian decimal rendering of `n` in exactly `w` digit positions
(leading zeros included).  Faithful for `n < 10 ^ w`. -/
def padDec : Nat → Nat → Str
  | 0, _ => []
  | w + 1, n => digitChar10 (n / 10 ^ w) :: padDec w (n % 10 ^ w)

/-- Fuel-driven count of decimal digits; `fuel > n` makes it exact. -/
def numDigitsAux : Nat → Nat → Nat
  | 0, _ => 0
  | fuel + 1, n => if n < 10 then 1 else numDigitsAux fuel (n / 10) + 1

/-- Number of decimal digits of `n` (`numDigits 0 = 1`), i.e. Python's
`len(str(n))` for a nonnegative `n`. -/
def numDigits (n : Nat) : Nat := numDigitsAux (n + 1) n

/-- Model of Python's `str` on a nonnegative integer: minimal-width decimal
rendering, `"0"` for zero. -/
def natRepr (n : Nat) : Str := padDec (numDigits n) n

/-- Model of Python's `str` on an integer. -/
def intRepr (n : Int) : Str :=
  if n < 0 then '-' :: natRepr n.natAbs else natRepr n.toNat

/-- Model of Python's `str` on a table cell value. -/
def pyStr : PyValue → Str
  | .int n => intRepr n
  | .str s => s

/-- Model of Python's format specifier `f"{n:0{width}d}"` for nonnegative
`n`: left-pad the decimal rendering with `'0'` up to `width` (no truncation
when the rendering is already wider). -/
def pyZeroPad (width n : Nat) : Str :=
  List.replicate (width - (natRepr n).length) '0' ++ natRepr n

/-- The per-case identifier computed by the script (both in
`process_required_templates` and `process_custom_templates`):
`num_digits = len(str(num_rows))`, then `f"Case{row_index + 1:0{num_digits}d}"`. -/
def caseNumber (numRows rowIndex : Nat) : Str :=
  "Case".data ++ pyZeroPad (natRepr numRows).length (rowIndex + 1)

/-- Fuel-driven scan for Python's `str.replace` with a nonempty pattern:
at each position, if `old` matches, emit `new` and skip the match, else keep
one character.  `fuel ≥ s.length` makes it exact (each step consumes at least
one character of `s`). -/
def pyReplaceCore (old new : Str) : Nat → Str → Str
  | _, [] => []
  | 0, s => s
  | fuel + 1, c :: rest =>
    if old.isPrefixOf (c :: rest) then
      new ++ pyReplaceCore old new fuel ((c :: rest).drop old.length)
    else
      c :: pyReplaceCore old new fuel rest

/-- Model of Python's `s.replace(old, new)` (all occurrences, leftmost,
non-overlapping; the empty pattern inserts `new` before every character and
at the end, as CPython does). -/
def pyReplace (old new s : Str) : Str :=
  if old = [] then new ++ (s.map (fun c => c :: new)).flatten
  else pyReplaceCore old new s.length s

/-- The script's `normalize_path`: replace every backslash by a slash. -/
def normalize_path (p : Str) : Str := pyReplace ['\\'] ['/'] p

/-- Model of `os.path.splitext` on a plain file name (no directory
separators occur in the names the script splits): split off the extension at
the last dot, except when every character before that dot is itself a dot. -/
def splitext (s : Str) : Str × Str :=
  let extLen := (s.reverse.takeWhile (fun c => c ≠ '.')).length
  if extLen < s.length then
    let dotPos := s.length - extLen - 1
    if (s.take dotPos).any (fun c => c ≠ '.') then (s.take dotPos, s.drop dotPos)
    else (s, [])
  else (s, [])

/-- Python's `str.endswith`. -/
def strEndsWith (suffix s : Str) : Bool := List.isSuffixOf suffix s

/-- A file written by the script: output path and final text content. -/
structure GenFile where
  path : Str
  content : Str
deriving DecidableEq

/-- The mutable state of `process_required_templates`: the files written to
the output directory so far and the two path lists it builds. -/
structure GenState where
  files : List GenFile
  sim_files : List Str
  java_files : List Str
deriving DecidableEq

/-- The two kinds of uncaught exception the instantiation functions can hit:
`ValueError` from `min()` over an empty sequence, and an `OSError` from a
file write. -/
inductive PyErr
  | valueError
  | ioError
deriving DecidableEq

/-- An uncaught exception escaping an instantiation function, together with
the files that had already been written when it was raised. -/
structure GenAbort where
  err : PyErr
  filesWritten : List GenFile
deriving DecidableEq

/-- Sequential application of `content.replace(old, new)` passes, one per
rule, each acting on the entire current content. -/
def applyRules (rules : List (Str × Str)) (content : Str) : Str :=
  rules.foldl (fun c r => pyReplace r.1 r.2 c) content

/-- The substitution passes the script applies to a copied `.java` macro
template, in source order (lines 305-309): `CaseName`, `template_Macro`,
`SavePath`, then one pass per parameter-table entry with the stringified
per-case value. -/
def javaSubstitutions (output_filename case_number output_folder_path : Str)
    (params : List (Str × List PyValue)) (row_index : Nat) : List (Str × Str) :=
  [("CaseName".data, case_number),
   ("template_Macro".data, (splitext output_filename).1),
   ("SavePath".data,
     normalize_path (output_folder_path ++ "/".data ++ case_number ++ ".sim".data))]
  ++ params.map (fun pv => (pv.1, pyStr (pv.2.getD row_index (.int 0))))

/-- One iteration of the inner template loop of `process_required_templates`
(lines 286-312): dispatch on the display name's extension, write the copy
(and, for `.java`, rewrite it with the substituted content), extend the path
lists.  `writeFails` abstracts the file system refusing a write, which in the
script raises an uncaught `OSError`. -/
def stepRequiredTemplate (params : List (Str × List PyValue))
    (output_folder_path : Str) (numRows row_index : Nat)
    (writeFails : Str → Bool) (st : GenState) (t : Str × Str) :
    Except GenAbort GenState :=
  let case_number := caseNumber numRows row_index
  if strEndsWith ".sim".data t.1 then
    let output_filename := case_number ++ ".sim".data
    let output_path := normalize_path (output_folder_path ++ "/".data ++ output_filename)
    if writeFails output_path then .error ⟨.ioError, st.files⟩
    else .ok ⟨st.files ++ [⟨output_path, t.2⟩],
              st.sim_files ++ [output_path], st.java_files⟩
  else if strEndsWith ".java".data t.1 then
    let output_filename :=
      (splitext t.1).1 ++ "_".data ++ case_number ++ (splitext t.1).2
    let output_path := normalize_path (output_folder_path ++ "/".data ++ output_filename)
    if writeFails output_path then .error ⟨.ioError, st.files⟩
    else
      let content :=
        applyRules (javaSubstitutions output_filename case_number
          output_folder_path params row_index) t.2
      .ok ⟨st.files ++ [⟨output_path, content⟩],
           st.sim_files, st.java_files ++ [output_path]⟩
  else .ok st

/-- One iteration of the outer row loop of `process_required_templates`. -/
def processRequiredRow (templates : List (Str × Str))
    (params : List (Str × List PyValue)) (output_folder_path : Str)
    (numRows : Nat) (writeFails : Str → Bool) (st : GenState)
    (row_index : Nat) : Except GenAbort GenState :=
  templates.foldlM (stepRequiredTemplate params output_folder_path numRows
    row_index writeFails) st

/-- `min(len(v) for v in params.values())` over a nonempty table. -/
def minRows (p0 : Str × List PyValue) (rest : List (Str × List PyValue)) : Nat :=
  (rest.map (fun v => v.2.length)).foldl Nat.min p0.2.length

/-- Embedding of `process_required_templates` (lines 241-314).  Templates are
given as `(display name, template file content)` pairs in the dictionary's
insertion order; `params` is the parameter table in insertion order.  On an
empty table, `min()` raises `ValueError` before anything is written. -/
def process_required_templates (templates : List (Str × Str))
    (params : List (Str × List PyValue)) (output_folder_path : Str)
    (writeFails : Str → Bool) : Except GenAbort GenState :=
  match params with
  | [] => .error ⟨.valueError, []⟩
  | p0 :: rest =>
    let numRows := minRows p0 rest
    (List.range numRows).foldlM
      (processRequiredRow templates (p0 :: rest) output_folder_path numRows
        writeFails) ⟨[], [], []⟩

/-- The dictionary built by `get_required_templates` (lines 136-139), with
paths replaced by the contents of the two mandatory template files. -/
def requiredTemplates (macroContent caseContent : Str) : List (Str × Str) :=
  [("Macro.java".data, macroContent), ("Case.sim".data, caseContent)]

/-- The mutable state of `process_custom_templates`: files written so far and
the `generated_files` path list it returns. -/
structure CustState where
  files : List GenFile
  generated_files : List Str
deriving DecidableEq

/-- The content rewriting `process_custom_templates` applies to one copied
auxiliary template (lines 464-474): the unconditional `CaseName` pass, the
configured rules (a rule value equal to the sentinel `"CASE_NUMBER"` is
resolved to the case identifier first), then the self-reference pass that
renames `template_<base>` to the generated file's base name. -/
def customContent (display_name output_filename case_number : Str)
    (replace_rules : List (Str × Str)) (templateContent : Str) : Str :=
  let c1 := pyReplace "CaseName".data case_number templateContent
  let c2 := replace_rules.foldl
    (fun c r =>
      let n := if r.2 = "CASE_NUMBER".data then case_number else r.2
      pyReplace r.1 n c) c1
  pyReplace ("template_".data ++ (splitext display_name).1)
    (splitext output_filename).1 c2

/-- One iteration of the inner template loop of `process_custom_templates`
(lines 458-474). -/
def stepCustomTemplate (output_folder_path : Str)
    (replace_rules : List (Str × Str)) (numRows row_index : Nat)
    (writeFails : Str → Bool) (st : CustState) (t : Str × Str) :
    Except GenAbort CustState :=
  let case_number := caseNumber numRows row_index
  let output_filename :=
    (splitext t.1).1 ++ "_".data ++ case_number ++ (splitext t.1).2
  let output_path := normalize_path (output_folder_path ++ "/".data ++ output_filename)
  if writeFails output_path then .error ⟨.ioError, st.files⟩
  else
    .ok ⟨st.files ++
          [⟨output_path, customContent t.1 output_filename case_number
              replace_rules t.2⟩],
         st.generated_files ++ [output_path]⟩

/-- One iteration of the outer row loop of `process_custom_templates`. -/
def processCustomRow (custom_templates : List (Str × Str))
    (output_folder_path : Str) (replace_rules : List (Str × Str))
    (numRows : Nat) (writeFails : Str → Bool) (st : CustState)
    (row_index : Nat) : Except GenAbort CustState :=
  custom_templates.foldlM (stepCustomTemplate output_folder_path replace_rules
    numRows row_index writeFails) st

/-- Embedding of `process_custom_templates` (lines 414-476).  Same shape as
the required-template pass: `min()` over an empty table raises `ValueError`
before any write. -/
def process_custom_templates (custom_templates : List (Str × Str))
    (params : List (Str × List PyValue)) (output_folder_path : Str)
    (replace_rules : List (Str × Str)) (writeFails : Str → Bool) :
    Except GenAbort CustState :=
  match params with
  | [] => .error ⟨.valueError, []⟩
  | p0 :: rest =>
    let numRows := minRows p0 rest
    (List.range numRows).foldlM
      (processCustomRow custom_templates output_folder_path replace_rules
        numRows writeFails) ⟨[], []⟩

/-- Python `dict.update` on an association list kept in insertion order: an
existing key keeps its position and gets the new value, a new key is
appended. -/
def dictUpdate (base upd : List (Str × Str)) : List (Str × Str) :=
  upd.foldl
    (fun acc kv =>
      if acc.any (fun e => e.1 = kv.1) then
        acc.map (fun e => if e.1 = kv.1 then (e.1, kv.2) else e)
      else acc ++ [kv])
    base

/-- Embedding of `get_custom_templates` (lines 154-202).  The directory scan
is an external collaborator, so the discovered auxiliary templates are a
parameter `(display name, content)`; the function pairs them with the final
replacement rules: the default `{"CaseName": "CASE_NUMBER"}` updated by the
caller's rules.  With no discovered template it returns two empty dicts. -/
def get_custom_templates (custom_templates : List (Str × Str))
    (replace_rules : Option (List (Str × Str))) :
    List (Str × Str) × List (Str × Str) :=
  if custom_templates = [] then ([], [])
  else
    (custom_templates,
     match replace_rules with
     | none => [("CaseName".data, "CASE_NUMBER".data)]
     | some rules => dictUpdate [("CaseName".data, "CASE_NUMBER".data)] rules)

/-- What happens to one submitted job in `process_sim_command`: either the
`starccm+` subprocess runs and `os.system` reports an exit code, or an
exception is raised while launching/monitoring the job (the body of
`execute_case` raises).  The two are mutually exclusive: an exception means
no exit code was obtained. -/
inductive JobOutcome
  | exits (code : Int)
  | raises
deriving DecidableEq

/-- `execute_case` (lines 359-392): returns `True` exactly when the exit
code is `0`; any exception is caught by its `try`/`except` and turned into
`False`, so a failure never escapes to sibling jobs. -/
def execute_case (outcome : JobOutcome) : Bool :=
  match outcome with
  | .exits code => code == 0
  | .raises => false

/-- Observable result of `process_sim_command`: the jobs submitted to the
thread pool, whether the execution-log directory was created, and the final
`success_count`.  The embedding is a total function: the Python function
returns `None` on every path and raises on none of them. -/
structure ExecReport where
  launched : List (Str × Str)
  logDirCreated : Bool
  successCount : Nat
deriving DecidableEq

/-- Embedding of `process_sim_command` (lines 316-412).  `outcome` abstracts
the external tool: it assigns each `(sim file, java file)` pair a
`JobOutcome`.  On a length mismatch the function logs and returns before
creating the log directory or submitting anything; otherwise every pair is
submitted and the successes are counted (the count is a pure aggregate, so
the unspecified completion order of the pool cannot change it). -/
def process_sim_command (sim_files java_files : List Str)
    (outcome : Str → Str → JobOutcome) : ExecReport :=
  if sim_files.length ≠ java_files.length then ⟨[], false, 0⟩
  else
    let jobs := sim_files.zip java_files
    ⟨jobs, true,
     (jobs.filter (fun j => execute_case (outcome j.1 j.2))).length⟩

/-- Observable result of `CreatOutputFolder`: the returned value (`None`
when the function falls through its `except` branch) and the directories it
created (or confirmed, `exist_ok=True`), plus the default path it logged. -/
structure FolderReport where
  result : Option Str
  created : List Str
  loggedDefault : Str
deriving DecidableEq

/-- Embedding of `CreatOutputFolder` (lines 204-239).  `abspath` models
`os.path.abspath`, `mkdirOk` models whether `os.makedirs(..., exist_ok=True)`
succeeds on a path.  For a falsy (empty) argument the local `output_path` is
never assigned, so the `try` block raises `UnboundLocalError`, the `except`
swallows it and the function returns `None` with nothing created; the
advertised default folder is only ever logged. -/
def CreatOutputFolder (OutputFolderPath : Str) (default_folder : Str)
    (abspath : Str → Str) (mkdirOk : Str → Bool) : FolderReport :=
  if OutputFolderPath ≠ [] then
    let output_path := abspath OutputFolderPath
    if mkdirOk output_path then ⟨some output_path, [output_path], default_folder⟩
    else ⟨none, [], default_folder⟩
  else ⟨none, [], default_folder⟩

/-! ### Decimal rendering: basic facts -/

theorem numDigitsAux_fuel :
    ∀ f g n, n < f → n < g → numDigitsAux f n = numDigitsAux g n := by
  intro f
  induction f with
  | zero => intro g n hf _; omega
  | succ f ih =>
    intro g n hf hg
    cases g with
    | zero => omega
    | succ g =>
      simp only [numDigitsAux]
      by_cases h10 : n < 10
      · simp [h10]
      · have hn : 0 < n := by omega
        have hd : n / 10 < n := Nat.div_lt_self hn (by omega)
        simp only [h10, if_false]
        rw [ih g (n / 10) (by omega) (by omega)]

theorem numDigitsAux_succ (f n : Nat) :
    numDigitsAux (f + 1) n = if n < 10 then 1 else numDigitsAux f (n / 10) + 1 :=
  rfl

theorem numDigits_of_lt (n : Nat) (h : n < 10) : numDigits n = 1 := by
  rw [numDigits, numDigitsAux_succ]
  simp [h]

theorem numDigits_of_ge (n : Nat) (h : 10 ≤ n) :
    numDigits n = numDigits (n / 10) + 1 := by
  have hd : n / 10 < n := Nat.div_lt_self (by omega) (by omega)
  rw [numDigits, numDigitsAux_succ]
  simp only [Nat.not_lt.mpr h, if_false]
  rw [numDigitsAux_fuel n (n / 10 + 1) (n / 10) (by omega) (by omega)]
  rfl

theorem lt_pow_numDigits : ∀ n : Nat, n < 10 ^ numDigits n := by
  intro n
  induction n using Nat.strong_induction_on with
  | _ n ih =>
    by_cases h10 : n < 10
    · rw [numDigits_of_lt n h10]; simpa using h10
    · push_neg at h10
      have hd : n / 10 < n := Nat.div_lt_self (by omega) (by omega)
      have hih := ih (n / 10) hd
      rw [numDigits_of_ge n h10, Nat.pow_succ]
      have hmod : n % 10 < 10 := Nat.mod_lt _ (by omega)
      have hdm := Nat.div_add_mod n 10
      omega

theorem numDigits_mono : ∀ a b : Nat, a ≤ b → numDigits a ≤ numDigits b := by
  intro a b
  induction b using Nat.strong_induction_on generalizing a with
  | _ b ih =>
    intro hab
    by_cases hb10 : b < 10
    · rw [numDigits_of_lt a (by omega), numDigits_of_lt b hb10]
    · push_neg at hb10
      rw [numDigits_of_ge b hb10]
      by_cases ha10 : a < 10
      · rw [numDigits_of_lt a ha10]; omega
      · push_neg at ha10
        rw [numDigits_of_ge a ha10]
        have hd : b / 10 < b := Nat.div_lt_self (by omega) (by omega)
        have := ih (b / 10) hd (a / 10) (Nat.div_le_div_right hab)
        omega

theorem length_padDec : ∀ w n, (padDec w n).length = w := by
  intro w
  induction w with
  | zero => intro n; rfl
  | succ w ih => intro n; simp [padDec, ih]

theorem length_natRepr (n : Nat) : (natRepr n).length = numDigits n :=
  length_padDec _ _

theorem padDec_shift :
    ∀ k w n, n < 10 ^ w →
      padDec (k + w) n = List.replicate k '0' ++ padDec w n := by
  intro k
  induction k with
  | zero => intro w n _; simp
  | succ k ih =>
    intro w n h
    have hw : 10 ^ w ≤ 10 ^ (k + w) := Nat.pow_le_pow_right (by omega) (by omega)
    have hlt : n < 10 ^ (k + w) := lt_of_lt_of_le h hw
    have : k + 1 + w = (k + w) + 1 := by omega
    rw [this]
    simp only [padDec, Nat.div_eq_of_lt hlt, Nat.mod_eq_of_lt hlt]
    rw [ih w n h]
    rfl

theorem pyZeroPad_eq_padDec (w n : Nat) (h : numDigits n ≤ w) :
    pyZeroPad w n = padDec w n := by
  unfold pyZeroPad natRepr
  rw [length_padDec]
  have := padDec_shift (w - numDigits n) (numDigits n) n (lt_pow_numDigits n)
  rw [← this]
  congr 1
  omega

theorem digitChar10_lt (a b : Nat) (hab : a < b) (hb : b < 10) :
    digitChar10 a < digitChar10 b := by
  interval_cases b <;> interval_cases a <;> decide

theorem padDec_lex :
    ∀ w a b, a < b → b < 10 ^ w →
      List.Lex (· < ·) (padDec w a) (padDec w b) := by
  intro w
  induction w with
  | zero => intro a b hab hb; simp at hb; omega
  | succ w ih =>
    intro a b hab hb
    have hpow : 0 < 10 ^ w := Nat.pos_pow_of_pos w (by omega)
    have hq : a / 10 ^ w ≤ b / 10 ^ w := Nat.div_le_div_right (le_of_lt hab)
    have hbq : b / 10 ^ w < 10 := by
      rw [Nat.div_lt_iff_lt_mul hpow]
      have hps : 10 ^ (w + 1) = 10 * 10 ^ w := by ring
      omega
    rcases lt_or_eq_of_le hq with hlt | heq
    · exact List.Lex.rel (digitChar10_lt _ _ hlt hbq)
    · simp only [padDec]
      rw [heq]
      apply List.Lex.cons
      apply ih
      · have hda := Nat.div_add_mod a (10 ^ w)
        have hdb := Nat.div_add_mod b (10 ^ w)
        rw [← heq] at hdb
        omega
      · exact Nat.mod_lt _ hpow

theorem lex_ne {l1 l2 : Str} (h : List.Lex (· < ·) l1 l2) : l1 ≠ l2 := by
  intro he; subst he; exact (IsAsymm.asymm _ _ h) h

theorem lex_append_left (p : Str) {l1 l2 : Str}
    (h : List.Lex (· < ·) l1 l2) :
    List.Lex (· < ·) (p ++ l1) (p ++ l2) := by
  induction p with
  | nil => exact h
  | cons c cs ih => exact List.Lex.cons ih

theorem caseNumber_eq_padDec (N i : Nat) (hi : i < N) :
    caseNumber N i = "Case".data ++ padDec (numDigits N) (i + 1) := by
  unfold caseNumber
  rw [length_natRepr]
  rw [pyZeroPad_eq_padDec _ _ (numDigits_mono (i + 1) N (by omega))]

theorem caseNumber_length (N i : Nat) (hi : i < N) :
    (caseNumber N i).length = 4 + numDigits N := by
  rw [caseNumber_eq_padDec N i hi]
  simp [length_padDec]
  omega

theorem caseNumber_lex (N i j : Nat) (hij : i < j) (hj : j < N) :
    List.Lex (· < ·) (caseNumber N i) (caseNumber N j) := by
  rw [caseNumber_eq_padDec N i (by omega), caseNumber_eq_padDec N j hj]
  apply lex_append_left
  apply padDec_lex
  · omega
  · have h1 : j + 1 ≤ N := by omega
    have h2 : numDigits (j + 1) ≤ numDigits N := numDigits_mono _ _ h1
    have h3 : N < 10 ^ numDigits N := lt_pow_numDigits N
    omega

/-- C3.  The case identifier of 0-based index `i` in a run of `N` cases is
`"Case"` followed by `i + 1` zero-padded to the digit count of `N`; the
identifiers of one run all have the same length, are pairwise distinct, and
are lexicographically increasing in the index. -/
theorem case_identifier_properties (N i j : Nat) (_hN : 1 ≤ N)
    (hi : i < N) (hj : j < N) :
    caseNumber N i = "Case".data ++ pyZeroPad (natRepr N).length (i + 1) ∧
    (caseNumber N i).length = (caseNumber N j).length ∧
    (i ≠ j → caseNumber N i ≠ caseNumber N j) ∧
    (i < j → List.Lex (· < ·) (caseNumber N i) (caseNumber N j)) := by
  refine ⟨rfl, ?_, ?_, fun hij => caseNumber_lex N i j hij hj⟩
  · rw [caseNumber_length N i hi, caseNumber_length N j hj]
  · intro hne
    rcases Nat.lt_or_ge i j with hij | hij
    · exact lex_ne (caseNumber_lex N i j hij hj)
    · have hji : j < i := by omega
      exact (lex_ne (caseNumber_lex N j i hji hi)).symm

/-- Witness for C3 at `N = 10`, `i = 2`, `j = 7`: identifiers `Case03` and
`Case08` share a length, differ, and are in lexicographic order. -/
theorem case_identifier_properties_witness :
    1 ≤ 10 ∧ 2 < 10 ∧ 7 < 10 ∧
    (caseNumber 10 2 = "Case".data ++ pyZeroPad (natRepr 10).length 3 ∧
     (caseNumber 10 2).length = (caseNumber 10 7).length ∧
     (2 ≠ 7 → caseNumber 10 2 ≠ caseNumber 10 7) ∧
     (2 < 7 → List.Lex (· < ·) (caseNumber 10 2) (caseNumber 10 7))) :=
  ⟨by omega, by omega, by omega,
   case_identifier_properties 10 2 7 (by omega) (by omega) (by omega)⟩

/-! ### The replacement scan: unfolding equations -/

theorem length_one_le_of_ne_nil {α : Type} {l : List α} (h : l ≠ []) :
    1 ≤ l.length := by
  cases l with
  | nil => exact absurd rfl h
  | cons _ _ => simp

theorem pyReplaceCore_fuel (old new : Str) (hold : old ≠ []) :
    ∀ f g s, s.length ≤ f → s.length ≤ g →
      pyReplaceCore old new f s = pyReplaceCore old new g s := by
  intro f
  induction f with
  | zero =>
    intro g s hf _
    have hs : s = [] := List.length_eq_zero.mp (Nat.le_zero.mp hf)
    subst hs
    cases g <;> rfl
  | succ f ih =>
    intro g s hf hg
    cases s with
    | nil => cases g <;> rfl
    | cons c rest =>
      simp only [List.length_cons] at hf hg
      cases g with
      | zero => omega
      | succ g =>
        simp only [pyReplaceCore]
        have h1 : 1 ≤ old.length := length_one_le_of_ne_nil hold
        by_cases hp : old.isPrefixOf (c :: rest) = true
        · simp only [hp, if_true]
          congr 1
          have hlen : ((c :: rest).drop old.length).length ≤ rest.length := by
            simp only [List.length_drop, List.length_cons]
            omega
          exact ih g _ (by omega) (by omega)
        · simp only [Bool.not_eq_true] at hp
          simp only [hp, Bool.false_eq_true, if_false]
          congr 1
          exact ih g rest (by omega) (by omega)

theorem pyReplace_nil (old new : Str) :
    pyReplace old new [] = if old = [] then new else [] := by
  by_cases h : old = [] <;> simp [pyReplace, h, pyReplaceCore]

theorem pyReplace_cons (old new : Str) (hold : old ≠ []) (c : Char) (rest : Str) :
    pyReplace old new (c :: rest) =
      if old.isPrefixOf (c :: rest) then
        new ++ pyReplace old new ((c :: rest).drop old.length)
      else c :: pyReplace old new rest := by
  have h1 : 1 ≤ old.length := length_one_le_of_ne_nil hold
  by_cases hp : old.isPrefixOf (c :: rest) = true
  · simp only [pyReplace, if_neg hold, List.length_cons, pyReplaceCore, hp, if_true]
    congr 1
    apply pyReplaceCore_fuel old new hold
    · simp only [List.length_drop, List.length_cons]; omega
    · exact le_refl _
  · simp only [Bool.not_eq_true] at hp
    simp only [pyReplace, if_neg hold, List.length_cons, pyReplaceCore, hp,
      Bool.false_eq_true, if_false]

theorem pyReplace_of_no_occurrence (old new : Str) (hold : old ≠ []) :
    ∀ s, ¬ old <:+: s → pyReplace old new s = s := by
  intro s
  induction s with
  | nil => intro _; rw [pyReplace_nil, if_neg hold]
  | cons c rest ih =>
    intro hni
    rw [pyReplace_cons old new hold]
    have hp : old.isPrefixOf (c :: rest) = false := by
      rw [Bool.eq_false_iff]
      intro hcontra
      exact hni (List.IsPrefix.isInfix (List.isPrefixOf_iff_prefix.mp hcontra))
    simp only [hp, Bool.false_eq_true, if_false]
    rw [ih (fun h => hni (List.infix_cons_iff.mpr (Or.inr h)))]

/-! ### Where can an occurrence of a pattern sit inside an append? -/

theorem prefixOfAppend {α : Type} (x : List α) :
    ∀ (q y : List α), q <+: x ++ y →
      q <+: x ∨ ∃ q2, q = x ++ q2 ∧ q2 <+: y := by
  induction x with
  | nil => intro q y h; right; exact ⟨q, by simp, by simpa using h⟩
  | cons a x ih =>
    intro q y h
    cases q with
    | nil => left; exact List.nil_prefix
    | cons b q' =>
      rw [List.cons_append, List.cons_prefix_cons] at h
      obtain ⟨rfl, h2⟩ := h
      rcases ih q' y h2 with h3 | ⟨q2, rfl, h4⟩
      · left; exact List.cons_prefix_cons.mpr ⟨rfl, h3⟩
      · right; exact ⟨q2, by simp, h4⟩

theorem infixOfAppend {α : Type} (x : List α) :
    ∀ (p y : List α), p <:+: x ++ y →
      p <:+: x ∨ p <:+: y ∨
        ∃ p1 p2, p = p1 ++ p2 ∧ p1 ≠ [] ∧ p2 ≠ [] ∧ p1 <:+ x ∧ p2 <+: y := by
  induction x with
  | nil => intro p y h; right; left; simpa using h
  | cons a x ih =>
    intro p y h
    rw [List.cons_append, List.infix_cons_iff] at h
    rcases h with h | h
    · rcases prefixOfAppend (a :: x) p y (by rwa [List.cons_append]) with
        h1 | ⟨q2, rfl, h2⟩
      · left; exact h1.isInfix
      · cases q2 with
        | nil => left; simp only [List.append_nil]; exact List.infix_refl (a :: x)
        | cons b q2' =>
          right; right
          exact ⟨a :: x, b :: q2', rfl, by simp, by simp,
            List.suffix_refl _, h2⟩
    · rcases ih p y h with h1 | h1 | ⟨p1, p2, rfl, hp1, hp2, hs, hpre⟩
      · left; exact List.infix_cons_iff.mpr (Or.inr h1)
      · right; left; exact h1
      · right; right
        refine ⟨p1, p2, rfl, hp1, hp2, ?_, hpre⟩
        obtain ⟨t, ht⟩ := hs
        exact ⟨a :: t, by rw [List.cons_append, ht]⟩

/-! ### Safe replacements: a pattern `p` that cannot be re-formed -/

/-- Conditions making the replacement text `new` safe with respect to a
pattern `p`: `p` does not occur inside `new`, no nonempty suffix of `new`
starts `p` (so an occurrence of `p` cannot begin inside an inserted block),
and every proper nonempty suffix of `p` is prefix-incomparable with `new`
(so an occurrence of `p` cannot continue into an inserted block).  These are
exactly the ways a replacement pass could keep or re-create an occurrence of
`p`. -/
def safeRepl (p new : Str) : Prop :=
  ¬ p <:+: new ∧
  (∀ β ∈ new.tails, β ≠ [] → ¬ β <+: p) ∧
  (∀ γ ∈ p.tails, γ ≠ [] → γ ≠ p → ¬ γ <+: new ∧ ¬ new <+: γ)

instance safeReplDecidable (p new : Str) : Decidable (safeRepl p new) := by
  unfold safeRepl
  infer_instance

theorem safeRepl_ne_nil {p new : Str} (h : safeRepl p new) : p ≠ [] :=
  fun he => h.1 (he ▸ List.nil_infix)

/-- A prefix of the output of the scan that satisfies the incomparability
conditions against `new` must already have been a prefix of the input. -/
theorem prefix_through_pyReplace (old new : Str) (hold : old ≠ []) :
    ∀ s q, (∀ γ, γ <:+ q → γ ≠ [] → ¬ γ <+: new ∧ ¬ new <+: γ) →
      q <+: pyReplace old new s → q <+: s := by
  intro s
  induction s with
  | nil =>
    intro q _ hq
    rwa [pyReplace_nil, if_neg hold] at hq
  | cons c rest ih =>
    intro q hsafe hq
    rw [pyReplace_cons old new hold] at hq
    by_cases hp : old.isPrefixOf (c :: rest) = true
    · simp only [hp, if_true] at hq
      cases q with
      | nil => exact List.nil_prefix
      | cons b q' =>
        rcases prefixOfAppend new (b :: q') _ hq with h1 | ⟨q2, heq, h2⟩
        · exact absurd h1 ((hsafe (b :: q') (List.suffix_refl _) (by simp)).1)
        · exact absurd ⟨q2, heq.symm⟩
            ((hsafe (b :: q') (List.suffix_refl _) (by simp)).2)
    · simp only [Bool.not_eq_true] at hp
      simp only [hp, Bool.false_eq_true, if_false] at hq
      cases q with
      | nil => exact List.nil_prefix
      | cons b q' =>
        rw [List.cons_prefix_cons] at hq
        obtain ⟨rfl, hq'⟩ := hq
        have hsafe' : ∀ γ, γ <:+ q' → γ ≠ [] → ¬ γ <+: new ∧ ¬ new <+: γ :=
          fun γ hγ hne => hsafe γ (hγ.trans (List.suffix_cons b q')) hne
        exact List.cons_prefix_cons.mpr ⟨rfl, ih q' hsafe' hq'⟩


/-- A pass that replaces `p` itself by a safe replacement text leaves no
occurrence of `p` behind, whatever the input. -/
theorem pyReplace_self_no_occurrence (p new : Str) (hsafe : safeRepl p new) :
    ∀ s, ¬ p <:+: pyReplace p new s := by
  have hp_ne : p ≠ [] := safeRepl_ne_nil hsafe
  obtain ⟨h1, h2, h3⟩ := hsafe
  suffices hsuf : ∀ n s, s.length ≤ n → ¬ p <:+: pyReplace p new s by
    intro s
    exact hsuf s.length s (le_refl _)
  intro n
  induction n with
  | zero =>
    intro s hlen
    have hs : s = [] := List.length_eq_zero.mp (Nat.le_zero.mp hlen)
    subst hs
    rw [pyReplace_nil, if_neg hp_ne]
    intro hcon
    have := List.IsInfix.sublist hcon
    simp only [List.sublist_nil] at this
    exact hp_ne this
  | succ n ih =>
    intro s hlen
    cases s with
    | nil =>
      rw [pyReplace_nil, if_neg hp_ne]
      intro hcon
      have := List.IsInfix.sublist hcon
      simp only [List.sublist_nil] at this
      exact hp_ne this
    | cons c rest =>
      simp only [List.length_cons] at hlen
      rw [pyReplace_cons p new hp_ne]
      by_cases hp : p.isPrefixOf (c :: rest) = true
      · simp only [hp, if_true]
        intro hcon
        rcases infixOfAppend new p _ hcon with hA | hA | ⟨p1, p2, heq, hne1, _, hs1, _⟩
        · exact h1 hA
        · have hdlen : ((c :: rest).drop p.length).length ≤ n := by
            have := length_one_le_of_ne_nil hp_ne
            simp only [List.length_drop, List.length_cons]
            omega
          exact ih _ hdlen hA
        · exact (h2 p1 (List.mem_tails _ _ |>.mpr hs1) hne1)
            (heq ▸ List.prefix_append p1 p2)
      · simp only [Bool.not_eq_true] at hp
        simp only [hp, Bool.false_eq_true, if_false]
        intro hcon
        rw [List.infix_cons_iff] at hcon
        rcases hcon with hc | hc
        · cases p with
          | nil => exact hp_ne rfl
          | cons d p' =>
            rw [List.cons_prefix_cons] at hc
            obtain ⟨rfl, hc'⟩ := hc
            cases p' with
            | nil =>
              have hcontra : (d :: ([] : Str)).isPrefixOf (d :: rest) = true := by
                rw [List.isPrefixOf_iff_prefix]
                exact List.cons_prefix_cons.mpr ⟨rfl, List.nil_prefix⟩
              rw [hcontra] at hp
              cases hp
            | cons e p'' =>
              have hsafe' : ∀ γ, γ <:+ e :: p'' → γ ≠ [] →
                  ¬ γ <+: new ∧ ¬ new <+: γ := by
                intro γ hγ hne
                have hγp : γ <:+ d :: e :: p'' :=
                  hγ.trans (List.suffix_cons d (e :: p''))
                have hlt : γ.length < (d :: e :: p'').length := by
                  have := hγ.length_le
                  simp only [List.length_cons] at this ⊢
                  omega
                have hγne : γ ≠ d :: e :: p'' := by
                  intro hcon2
                  rw [hcon2] at hlt
                  omega
                exact h3 γ (List.mem_tails _ _ |>.mpr hγp) hne hγne
              have hB := prefix_through_pyReplace (d :: e :: p'') new hp_ne
                rest (e :: p'') hsafe' hc'
              have hcontra : (d :: e :: p'').isPrefixOf (d :: rest) = true := by
                rw [List.isPrefixOf_iff_prefix]
                exact List.cons_prefix_cons.mpr ⟨rfl, hB⟩
              rw [hcontra] at hp
              cases hp
        · exact ih rest (by omega) hc

/-- A pass with any nonempty pattern and a safe replacement text cannot
introduce an occurrence of `p` where there was none. -/
theorem pyReplace_preserves_no_occurrence (p old new : Str) (hold : old ≠ [])
    (hsafe : safeRepl p new) :
    ∀ s, ¬ p <:+: s → ¬ p <:+: pyReplace old new s := by
  obtain ⟨h1, h2, h3⟩ := hsafe
  suffices hsuf : ∀ n s, s.length ≤ n → ¬ p <:+: s → ¬ p <:+: pyReplace old new s by
    intro s
    exact hsuf s.length s (le_refl _)
  intro n
  induction n with
  | zero =>
    intro s hlen hs
    have h0 : s = [] := List.length_eq_zero.mp (Nat.le_zero.mp hlen)
    subst h0
    rwa [pyReplace_nil, if_neg hold]
  | succ n ih =>
    intro s hlen hs
    cases s with
    | nil => rwa [pyReplace_nil, if_neg hold]
    | cons c rest =>
      simp only [List.length_cons] at hlen
      rw [pyReplace_cons old new hold]
      by_cases hp : old.isPrefixOf (c :: rest) = true
      · simp only [hp, if_true]
        intro hcon
        rcases infixOfAppend new p _ hcon with hA | hA | ⟨p1, p2, heq, hne1, _, hs1, _⟩
        · exact h1 hA
        · have hdlen : ((c :: rest).drop old.length).length ≤ n := by
            have := length_one_le_of_ne_nil hold
            simp only [List.length_drop, List.length_cons]
            omega
          have hdrop : ¬ p <:+: (c :: rest).drop old.length := fun hcon2 =>
            hs (hcon2.trans (List.drop_suffix _ _).isInfix)
          exact ih _ hdlen hdrop hA
        · exact (h2 p1 (List.mem_tails _ _ |>.mpr hs1) hne1)
            (heq ▸ List.prefix_append p1 p2)
      · simp only [Bool.not_eq_true] at hp
        simp only [hp, Bool.false_eq_true, if_false]
        intro hcon
        rw [List.infix_cons_iff] at hcon
        rcases hcon with hc | hc
        · cases p with
          | nil => exact hs List.nil_infix
          | cons d p' =>
            rw [List.cons_prefix_cons] at hc
            obtain ⟨rfl, hc'⟩ := hc
            cases p' with
            | nil =>
              exact hs (List.IsPrefix.isInfix
                (List.cons_prefix_cons.mpr ⟨rfl, List.nil_prefix⟩))
            | cons e p'' =>
              have hsafe' : ∀ γ, γ <:+ e :: p'' → γ ≠ [] →
                  ¬ γ <+: new ∧ ¬ new <+: γ := by
                intro γ hγ hne
                have hγp : γ <:+ d :: e :: p'' :=
                  hγ.trans (List.suffix_cons d (e :: p''))
                have hlt : γ.length < (d :: e :: p'').length := by
                  have := hγ.length_le
                  simp only [List.length_cons] at this ⊢
                  omega
                have hγne : γ ≠ d :: e :: p'' := by
                  intro hcon2
                  rw [hcon2] at hlt
                  omega
                exact h3 γ (List.mem_tails _ _ |>.mpr hγp) hne hγne
              have hB := prefix_through_pyReplace old new hold
                rest (e :: p'') hsafe' hc'
              exact hs (List.IsPrefix.isInfix
                (List.cons_prefix_cons.mpr ⟨rfl, hB⟩))
        · have hrest : ¬ p <:+: rest := fun hcon2 =>
            hs (List.infix_cons_iff.mpr (Or.inr hcon2))
          exact ih rest (by omega) hrest hc

/-! ### Substitution pipelines -/

theorem applyRules_append (l1 l2 : List (Str × Str)) (c : Str) :
    applyRules (l1 ++ l2) c = applyRules l2 (applyRules l1 c) := by
  unfold applyRules
  exact List.foldl_append _ _ _ _

theorem applyRules_no_occurrence (p : Str) :
    ∀ (rules : List (Str × Str)) (c : Str), ¬ p <:+: c →
      (∀ r ∈ rules, r.1 ≠ [] ∧ safeRepl p r.2) →
      ¬ p <:+: applyRules rules c := by
  intro rules
  induction rules with
  | nil => intro c hc _; exact hc
  | cons r rs ih =>
    intro c hc hr
    have h1 := hr r (by simp)
    have h2 : ¬ p <:+: pyReplace r.1 r.2 c :=
      pyReplace_preserves_no_occurrence p r.1 r.2 h1.1 h1.2 c hc
    exact ih _ h2 (fun r' hr' => hr r' (by simp [hr']))

/-! ### Characterizing a fully successful required-template run -/

/-- The path of the case file generated for case `i`. -/
def simPath (out : Str) (numRows i : Nat) : Str :=
  normalize_path (out ++ "/".data ++ (caseNumber numRows i ++ ".sim".data))

/-- The file name of the macro generated for case `i` from a template whose
display name is `dn`. -/
def javaFileName (dn : Str) (numRows i : Nat) : Str :=
  (splitext dn).1 ++ "_".data ++ caseNumber numRows i ++ (splitext dn).2

/-- The path of the macro file generated for case `i`. -/
def javaPath (out dn : Str) (numRows i : Nat) : Str :=
  normalize_path (out ++ "/".data ++ javaFileName dn numRows i)

/-- The final content of the macro generated for case `i` from the java
template `(dn, tc)`. -/
def javaGenContent (dn tc out : Str) (params : List (Str × List PyValue))
    (numRows i : Nat) : Str :=
  applyRules (javaSubstitutions (javaFileName dn numRows i)
    (caseNumber numRows i) out params i) tc

/-- Pointwise concatenation of generation states. -/
def GenState.app (a b : GenState) : GenState :=
  ⟨a.files ++ b.files, a.sim_files ++ b.sim_files, a.java_files ++ b.java_files⟩

theorem GenState_app_assoc (a b c : GenState) :
    GenState.app (GenState.app a b) c = GenState.app a (GenState.app b c) := by
  simp [GenState.app, List.append_assoc]

theorem GenState_app_nil_left (a : GenState) :
    GenState.app ⟨[], [], []⟩ a = a := by
  simp [GenState.app]

/-- What one template contributes to case `i` in a successful run. -/
def rowOutput (params : List (Str × List PyValue)) (out : Str)
    (numRows i : Nat) (t : Str × Str) : GenState :=
  if strEndsWith ".sim".data t.1 then
    ⟨[⟨simPath out numRows i, t.2⟩], [simPath out numRows i], []⟩
  else if strEndsWith ".java".data t.1 then
    ⟨[⟨javaPath out t.1 numRows i,
       javaGenContent t.1 t.2 out params numRows i⟩],
     [], [javaPath out t.1 numRows i]⟩
  else ⟨[], [], []⟩

/-- What the whole template set contributes to case `i`. -/
def rowTotal (templates : List (Str × Str)) (params : List (Str × List PyValue))
    (out : Str) (numRows i : Nat) : GenState :=
  match templates with
  | [] => ⟨[], [], []⟩
  | t :: ts =>
    GenState.app (rowOutput params out numRows i t)
      (rowTotal ts params out numRows i)

/-- What a list of case indices contributes in a successful run. -/
def rowsTotal (templates : List (Str × Str)) (params : List (Str × List PyValue))
    (out : Str) (numRows : Nat) (rows : List Nat) : GenState :=
  match rows with
  | [] => ⟨[], [], []⟩
  | r :: rs =>
    GenState.app (rowTotal templates params out numRows r)
      (rowsTotal templates params out numRows rs)

theorem stepRequiredTemplate_ok (params : List (Str × List PyValue))
    (out : Str) (numRows i : Nat) (st : GenState) (t : Str × Str) :
    stepRequiredTemplate params out numRows i (fun _ => false) st t =
      .ok (GenState.app st (rowOutput params out numRows i t)) := by
  by_cases h1 : strEndsWith ".sim".data t.1 = true
  · simp [stepRequiredTemplate, rowOutput, GenState.app, h1, simPath,
      List.append_assoc]
  · by_cases h2 : strEndsWith ".java".data t.1 = true
    · simp [stepRequiredTemplate, rowOutput, GenState.app, h1, h2, javaPath,
        javaFileName, javaGenContent, List.append_assoc]
    · simp [stepRequiredTemplate, rowOutput, GenState.app, h1, h2]

theorem GenState_app_nil_right (a : GenState) :
    GenState.app a ⟨[], [], []⟩ = a := by
  simp [GenState.app]

theorem processRequiredRow_ok (templates : List (Str × Str))
    (params : List (Str × List PyValue)) (out : Str) (numRows : Nat) :
    ∀ (i : Nat) (st : GenState),
      processRequiredRow templates params out numRows (fun _ => false) st i =
        .ok (GenState.app st (rowTotal templates params out numRows i)) := by
  induction templates with
  | nil =>
    intro i st
    show ([] : List (Str × Str)).foldlM
        (stepRequiredTemplate params out numRows i (fun _ => false)) st =
      .ok (GenState.app st ⟨[], [], []⟩)
    rw [List.foldlM_nil, GenState_app_nil_right]
    rfl
  | cons t ts ih =>
    intro i st
    show (t :: ts).foldlM
        (stepRequiredTemplate params out numRows i (fun _ => false)) st = _
    rw [List.foldlM_cons, stepRequiredTemplate_ok]
    have hassoc : GenState.app st (rowTotal (t :: ts) params out numRows i) =
        GenState.app (GenState.app st (rowOutput params out numRows i t))
          (rowTotal ts params out numRows i) := by
      show GenState.app st (GenState.app (rowOutput params out numRows i t)
        (rowTotal ts params out numRows i)) = _
      rw [GenState_app_assoc]
    rw [hassoc]
    exact ih i _

theorem foldRows_ok (templates : List (Str × Str))
    (params : List (Str × List PyValue)) (out : Str) (numRows : Nat) :
    ∀ (rows : List Nat) (st : GenState),
      rows.foldlM (processRequiredRow templates params out numRows
          (fun _ => false)) st =
        .ok (GenState.app st (rowsTotal templates params out numRows rows)) := by
  intro rows
  induction rows with
  | nil =>
    intro st
    rw [List.foldlM_nil]
    show Except.ok st = _
    rw [show rowsTotal templates params out numRows [] = (⟨[], [], []⟩ : GenState)
      from rfl, GenState_app_nil_right]
  | cons r rs ih =>
    intro st
    rw [List.foldlM_cons, processRequiredRow_ok]
    have hassoc : GenState.app st (rowsTotal templates params out numRows (r :: rs)) =
        GenState.app (GenState.app st (rowTotal templates params out numRows r))
          (rowsTotal templates params out numRows rs) := by
      show GenState.app st (GenState.app (rowTotal templates params out numRows r)
        (rowsTotal templates params out numRows rs)) = _
      rw [GenState_app_assoc]
    rw [hassoc]
    exact ih _

/-- A required-template run with no write failures succeeds and produces
exactly the per-case outputs of all case indices `0 .. N-1`. -/
theorem process_required_templates_ok (templates : List (Str × Str))
    (p0 : Str × List PyValue) (rest : List (Str × List PyValue)) (out : Str) :
    process_required_templates templates (p0 :: rest) out (fun _ => false) =
      .ok (rowsTotal templates (p0 :: rest) out (minRows p0 rest)
        (List.range (minRows p0 rest))) := by
  show (List.range (minRows p0 rest)).foldlM
      (processRequiredRow templates (p0 :: rest) out (minRows p0 rest)
        (fun _ => false)) ⟨[], [], []⟩ = _
  rw [foldRows_ok, GenState_app_nil_left]

/-! ### The case count is the minimum of the sequence lengths -/

theorem foldl_min_le_init : ∀ (l : List Nat) (a : Nat), l.foldl Nat.min a ≤ a := by
  intro l
  induction l with
  | nil => intro a; exact le_refl a
  | cons x xs ih =>
    intro a
    exact le_trans (ih (Nat.min a x)) (Nat.min_le_left a x)

theorem foldl_min_le_mem :
    ∀ (l : List Nat) (a x : Nat), x ∈ l → l.foldl Nat.min a ≤ x := by
  intro l
  induction l with
  | nil => intro a x hx; simp at hx
  | cons y ys ih =>
    intro a x hx
    rcases List.mem_cons.mp hx with rfl | hx
    · exact le_trans (foldl_min_le_init ys (Nat.min a x)) (Nat.min_le_right a x)
    · exact ih (Nat.min a y) x hx

theorem foldl_min_eq_init_or_mem :
    ∀ (l : List Nat) (a : Nat), l.foldl Nat.min a = a ∨ l.foldl Nat.min a ∈ l := by
  intro l
  induction l with
  | nil => intro a; left; rfl
  | cons y ys ih =>
    intro a
    rcases ih (Nat.min a y) with h | h
    · rw [List.foldl_cons]
      by_cases hle : a ≤ y
      · left; rw [h]; exact Nat.min_eq_left hle
      · right
        have hmin : Nat.min a y = y := Nat.min_eq_right (by omega)
        rw [h, hmin]
        exact List.mem_cons_self _ _
    · right; exact List.mem_cons_of_mem y h

/-- The case count over a nonempty parameter table, `0` over an empty one
(where the script instead raises). -/
def minRowsOf (params : List (Str × List PyValue)) : Nat :=
  match params with
  | [] => 0
  | p0 :: rest => minRows p0 rest

theorem minRowsOf_le (params : List (Str × List PyValue)) :
    ∀ pv ∈ params, minRowsOf params ≤ pv.2.length := by
  intro pv hpv
  match params with
  | [] => simp at hpv
  | p0 :: rest =>
    rcases List.mem_cons.mp hpv with rfl | hpv
    · exact foldl_min_le_init _ _
    · exact foldl_min_le_mem _ _ _ (List.mem_map.mpr ⟨pv, hpv, rfl⟩)

theorem minRowsOf_mem (p0 : Str × List PyValue) (rest : List (Str × List PyValue)) :
    ∃ pv ∈ p0 :: rest, minRowsOf (p0 :: rest) = pv.2.length := by
  rcases foldl_min_eq_init_or_mem (rest.map (fun v => v.2.length)) p0.2.length with h | h
  · exact ⟨p0, List.mem_cons_self _ _, h⟩
  · obtain ⟨pv, hpv, heq⟩ := List.mem_map.mp h
    exact ⟨pv, List.mem_cons_of_mem _ hpv, heq.symm⟩

theorem process_required_templates_nonempty_ok (templates : List (Str × Str))
    (params : List (Str × List PyValue)) (out : Str) (hne : params ≠ []) :
    process_required_templates templates params out (fun _ => false) =
      .ok (rowsTotal templates params out (minRowsOf params)
        (List.range (minRowsOf params))) := by
  match params with
  | [] => exact absurd rfl hne
  | p0 :: rest => exact process_required_templates_ok templates p0 rest out

/-! ### Components of a successful canonical run -/

theorem rowTotal_required (mc cc : Str) (params : List (Str × List PyValue))
    (out : Str) (numRows i : Nat) :
    rowTotal (requiredTemplates mc cc) params out numRows i =
      ⟨[⟨javaPath out "Macro.java".data numRows i,
         javaGenContent "Macro.java".data mc out params numRows i⟩,
        ⟨simPath out numRows i, cc⟩],
       [simPath out numRows i],
       [javaPath out "Macro.java".data numRows i]⟩ := by
  have h1 : strEndsWith ".sim".data "Macro.java".data = false := by decide
  have h2 : strEndsWith ".java".data "Macro.java".data = true := by decide
  have h3 : strEndsWith ".sim".data "Case.sim".data = true := by decide
  simp [rowTotal, requiredTemplates, rowOutput, h1, h2, h3, GenState.app]

theorem rowsTotal_required_files (mc cc : Str) (params : List (Str × List PyValue))
    (out : Str) (numRows : Nat) :
    ∀ rows : List Nat,
      (rowsTotal (requiredTemplates mc cc) params out numRows rows).files =
        rows.flatMap (fun i =>
          [⟨javaPath out "Macro.java".data numRows i,
            javaGenContent "Macro.java".data mc out params numRows i⟩,
           ⟨simPath out numRows i, cc⟩]) ∧
      (rowsTotal (requiredTemplates mc cc) params out numRows rows).sim_files =
        rows.map (simPath out numRows) ∧
      (rowsTotal (requiredTemplates mc cc) params out numRows rows).java_files =
        rows.map (javaPath out "Macro.java".data numRows) := by
  intro rows
  induction rows with
  | nil => exact ⟨rfl, rfl, rfl⟩
  | cons r rs ih =>
    obtain ⟨hf, hs, hj⟩ := ih
    refine ⟨?_, ?_, ?_⟩ <;>
      simp [rowsTotal, rowTotal_required, GenState.app, hf, hs, hj]

/-- C4.  Over any nonempty parameter table, a write-failure-free
required-template run over the two canonical templates succeeds (unequal
sequence lengths are not an error), generates exactly `N` cases where `N` is
the minimum of the value-sequence lengths, and returns a sim-file list and a
java-file list that are each ordered by ascending case index and have length
`N`. -/
theorem required_run_case_count (mc cc : Str) (params : List (Str × List PyValue))
    (out : Str) (hne : params ≠ []) :
    ∃ st, process_required_templates (requiredTemplates mc cc) params out
        (fun _ => false) = .ok st ∧
      st.sim_files = (List.range (minRowsOf params)).map
        (simPath out (minRowsOf params)) ∧
      st.java_files = (List.range (minRowsOf params)).map
        (javaPath out "Macro.java".data (minRowsOf params)) ∧
      st.sim_files.length = minRowsOf params ∧
      st.java_files.length = minRowsOf params ∧
      (∀ pv ∈ params, minRowsOf params ≤ pv.2.length) ∧
      (∃ pv ∈ params, minRowsOf params = pv.2.length) := by
  refine ⟨_, process_required_templates_nonempty_ok _ params out hne, ?_⟩
  obtain ⟨hf, hs, hj⟩ := rowsTotal_required_files mc cc params out
    (minRowsOf params) (List.range (minRowsOf params))
  refine ⟨hs, hj, ?_, ?_, minRowsOf_le params, ?_⟩
  · rw [hs]; simp
  · rw [hj]; simp
  · match params, hne with
    | p0 :: rest, _ => exact minRowsOf_mem p0 rest

/-- Witness for C4: sequences of lengths `[5, 3, 5]` silently truncate the
run to `N = 3` generated cases. -/
theorem required_run_case_count_witness :
    (([("A".data, [PyValue.int 1, PyValue.int 2, PyValue.int 3, PyValue.int 4,
        PyValue.int 5]),
       ("B".data, [PyValue.int 1, PyValue.int 2, PyValue.int 3]),
       ("C".data, [PyValue.int 1, PyValue.int 2, PyValue.int 3, PyValue.int 4,
        PyValue.int 5])] : List (Str × List PyValue)) ≠ []) ∧
    minRowsOf [("A".data, [PyValue.int 1, PyValue.int 2, PyValue.int 3,
        PyValue.int 4, PyValue.int 5]),
       ("B".data, [PyValue.int 1, PyValue.int 2, PyValue.int 3]),
       ("C".data, [PyValue.int 1, PyValue.int 2, PyValue.int 3, PyValue.int 4,
        PyValue.int 5])] = 3 ∧
    ∃ st, process_required_templates
        (requiredTemplates "m".data "c".data)
        [("A".data, [PyValue.int 1, PyValue.int 2, PyValue.int 3, PyValue.int 4,
          PyValue.int 5]),
         ("B".data, [PyValue.int 1, PyValue.int 2, PyValue.int 3]),
         ("C".data, [PyValue.int 1, PyValue.int 2, PyValue.int 3, PyValue.int 4,
          PyValue.int 5])] "o".data (fun _ => false) = .ok st ∧
      st.sim_files.length = 3 ∧ st.java_files.length = 3 := by
  refine ⟨by simp, by decide, ?_⟩
  obtain ⟨st, hok, _, _, hls, hlj, _, _⟩ := required_run_case_count "m".data "c".data
    [("A".data, [PyValue.int 1, PyValue.int 2, PyValue.int 3, PyValue.int 4,
      PyValue.int 5]),
     ("B".data, [PyValue.int 1, PyValue.int 2, PyValue.int 3]),
     ("C".data, [PyValue.int 1, PyValue.int 2, PyValue.int 3, PyValue.int 4,
      PyValue.int 5])] "o".data (by simp)
  refine ⟨st, hok, ?_, ?_⟩
  · rw [hls]; decide
  · rw [hlj]; decide

/-! ### C2: the fixed substitution order on macro templates -/

/-- The substitution order exactly as the specification words it: (1) the
reserved case-name placeholder, (2) the literal macro template base name
`template_Macro` to the generated macro's base name, (3) the reserved
save-path placeholder to the normalized path of the generated case file,
then (4) one pass per parameter-table placeholder with the stringified
per-case value, every pass acting on the entire current content. -/
def specOrderedMacroSubstitution (templateContent case_id macroBase savePath : Str)
    (params : List (Str × List PyValue)) (i : Nat) : Str :=
  let s1 := pyReplace "CaseName".data case_id templateContent
  let s2 := pyReplace "template_Macro".data macroBase s1
  let s3 := pyReplace "SavePath".data savePath s2
  params.foldl (fun c pv => pyReplace pv.1 (pyStr (pv.2.getD i (.int 0))) c) s3

theorem javaGenContent_eq_spec (dn tc out : Str)
    (params : List (Str × List PyValue)) (numRows i : Nat) :
    javaGenContent dn tc out params numRows i =
      specOrderedMacroSubstitution tc (caseNumber numRows i)
        (splitext (javaFileName dn numRows i)).1
        (normalize_path (out ++ "/".data ++ caseNumber numRows i ++ ".sim".data))
        params i := by
  unfold javaGenContent specOrderedMacroSubstitution applyRules javaSubstitutions
  rw [List.foldl_append, List.foldl_map]
  rfl

theorem mem_files_of_row (mc cc : Str) (params : List (Str × List PyValue))
    (out : Str) (numRows i : Nat) (rows : List Nat) (hrow : i ∈ rows) :
    (⟨javaPath out "Macro.java".data numRows i,
      javaGenContent "Macro.java".data mc out params numRows i⟩ : GenFile) ∈
        (rowsTotal (requiredTemplates mc cc) params out numRows rows).files ∧
    (⟨simPath out numRows i, cc⟩ : GenFile) ∈
        (rowsTotal (requiredTemplates mc cc) params out numRows rows).files := by
  obtain ⟨hf, _, _⟩ := rowsTotal_required_files mc cc params out numRows rows
  rw [hf]
  constructor
  · exact List.mem_flatMap.mpr ⟨i, hrow, by simp⟩
  · exact List.mem_flatMap.mpr ⟨i, hrow, by simp⟩

/-- C2.  In a successful canonical run, the macro file generated for case `i`
carries exactly the content obtained by the specification's fixed
substitution order: case-name, then macro self-reference, then save path,
then the parameter placeholders, each pass over the whole content. -/
theorem macro_substitution_order (mc cc : Str) (params : List (Str × List PyValue))
    (out : Str) (i : Nat) (hne : params ≠ []) (hi : i < minRowsOf params) :
    ∃ st, process_required_templates (requiredTemplates mc cc) params out
        (fun _ => false) = .ok st ∧
      (⟨javaPath out "Macro.java".data (minRowsOf params) i,
        specOrderedMacroSubstitution mc (caseNumber (minRowsOf params) i)
          (splitext (javaFileName "Macro.java".data (minRowsOf params) i)).1
          (normalize_path (out ++ "/".data ++ caseNumber (minRowsOf params) i
            ++ ".sim".data))
          params i⟩ : GenFile) ∈ st.files := by
  refine ⟨_, process_required_templates_nonempty_ok _ params out hne, ?_⟩
  rw [← javaGenContent_eq_spec]
  exact (mem_files_of_row mc cc params out (minRowsOf params) i
    (List.range (minRowsOf params)) (List.mem_range.mpr hi)).1

/-- Witness for C2 at a one-placeholder table with two rows, case index 1. -/
theorem macro_substitution_order_witness :
    (([("T".data, [PyValue.int 300, PyValue.int 350])] : List (Str × List PyValue))
      ≠ []) ∧
    1 < minRowsOf [("T".data, [PyValue.int 300, PyValue.int 350])] ∧
    ∃ st, process_required_templates
        (requiredTemplates "template_Macro CaseName SavePath T".data "body".data)
        [("T".data, [PyValue.int 300, PyValue.int 350])] "o".data
        (fun _ => false) = .ok st ∧
      (⟨javaPath "o".data "Macro.java".data
          (minRowsOf [("T".data, [PyValue.int 300, PyValue.int 350])]) 1,
        specOrderedMacroSubstitution "template_Macro CaseName SavePath T".data
          (caseNumber (minRowsOf [("T".data, [PyValue.int 300, PyValue.int 350])]) 1)
          (splitext (javaFileName "Macro.java".data
            (minRowsOf [("T".data, [PyValue.int 300, PyValue.int 350])]) 1)).1
          (normalize_path ("o".data ++ "/".data
            ++ caseNumber (minRowsOf [("T".data, [PyValue.int 300, PyValue.int 350])]) 1
            ++ ".sim".data))
          [("T".data, [PyValue.int 300, PyValue.int 350])] 1⟩ : GenFile) ∈ st.files :=
  ⟨by simp, by decide,
   macro_substitution_order "template_Macro CaseName SavePath T".data "body".data
     [("T".data, [PyValue.int 300, PyValue.int 350])] "o".data 1
     (by simp) (by decide)⟩

/-! ### C1: placeholder completeness -/

theorem applyRules_middle_kill (p v : Str) (l1 l2 : List (Str × Str)) (c : Str)
    (hself : safeRepl p v)
    (hl2 : ∀ r ∈ l2, r.1 ≠ [] ∧ safeRepl p r.2) :
    ¬ p <:+: applyRules (l1 ++ (p, v) :: l2) c := by
  rw [applyRules_append]
  have h0 : applyRules ((p, v) :: l2) (applyRules l1 c) =
      applyRules l2 (pyReplace p v (applyRules l1 c)) := rfl
  rw [h0]
  exact applyRules_no_occurrence p l2 _ (pyReplace_self_no_occurrence p v hself _) hl2

/-- C1 (amended).  Placeholder completeness holds for the generated macro
(`.java`) files, not for the case (`.sim`) files: in a successful canonical
run over table `pre ++ (p, vals) :: post`, the case file of case `i` is a
byte-for-byte copy of the case template (no substitution at all), while the
macro file of case `i` contains no occurrence of the placeholder `p`,
provided `p`'s own stringified value and the stringified values of the
placeholders substituted after `p` are safe replacement texts for `p`
(nonempty, and unable to re-form an occurrence of `p` at a boundary). -/
theorem placeholder_completeness_macro (mc cc out : Str)
    (pre post : List (Str × List PyValue)) (p : Str) (vals : List PyValue)
    (i : Nat) (hi : i < minRowsOf (pre ++ (p, vals) :: post))
    (hself : safeRepl p (pyStr (vals.getD i (.int 0))))
    (hpost : ∀ pv ∈ post, pv.1 ≠ [] ∧ safeRepl p (pyStr (pv.2.getD i (.int 0)))) :
    ∃ st, process_required_templates (requiredTemplates mc cc)
        (pre ++ (p, vals) :: post) out (fun _ => false) = .ok st ∧
      (⟨simPath out (minRowsOf (pre ++ (p, vals) :: post)) i, cc⟩ : GenFile)
        ∈ st.files ∧
      (⟨javaPath out "Macro.java".data (minRowsOf (pre ++ (p, vals) :: post)) i,
        javaGenContent "Macro.java".data mc out (pre ++ (p, vals) :: post)
          (minRowsOf (pre ++ (p, vals) :: post)) i⟩ : GenFile) ∈ st.files ∧
      ¬ p <:+: javaGenContent "Macro.java".data mc out (pre ++ (p, vals) :: post)
          (minRowsOf (pre ++ (p, vals) :: post)) i := by
  have hne : pre ++ (p, vals) :: post ≠ [] := by simp
  refine ⟨_, process_required_templates_nonempty_ok _ _ out hne, ?_, ?_, ?_⟩
  · exact (mem_files_of_row mc cc (pre ++ (p, vals) :: post) out
      (minRowsOf (pre ++ (p, vals) :: post)) i _ (List.mem_range.mpr hi)).2
  · exact (mem_files_of_row mc cc (pre ++ (p, vals) :: post) out
      (minRowsOf (pre ++ (p, vals) :: post)) i _ (List.mem_range.mpr hi)).1
  · unfold javaGenContent javaSubstitutions
    rw [List.map_append, List.map_cons, ← List.append_assoc]
    apply applyRules_middle_kill p _ _ _ mc hself
    intro r hr
    obtain ⟨pv, hpv, rfl⟩ := List.mem_map.mp hr
    exact hpost pv hpv

/-- Witness for C1 (amended): table `{"T": [300]}`, case 0.  `safeRepl` holds
for the pattern `T` against the value text `300`, the sim copy is present,
and the macro content is free of `T`. -/
theorem placeholder_completeness_macro_witness :
    0 < minRowsOf ([] ++ ("T".data, [PyValue.int 300]) :: []) ∧
    safeRepl "T".data (pyStr ((([PyValue.int 300]) : List PyValue).getD 0 (.int 0))) ∧
    ∃ st, process_required_templates
        (requiredTemplates "set T; save SavePath".data "inlet_temp = T".data)
        ([] ++ ("T".data, [PyValue.int 300]) :: []) "o".data
        (fun _ => false) = .ok st ∧
      (⟨simPath "o".data
          (minRowsOf ([] ++ ("T".data, [PyValue.int 300]) :: [])) 0,
        "inlet_temp = T".data⟩ : GenFile) ∈ st.files ∧
      (⟨javaPath "o".data "Macro.java".data
          (minRowsOf ([] ++ ("T".data, [PyValue.int 300]) :: [])) 0,
        javaGenContent "Macro.java".data "set T; save SavePath".data "o".data
          ([] ++ ("T".data, [PyValue.int 300]) :: [])
          (minRowsOf ([] ++ ("T".data, [PyValue.int 300]) :: [])) 0⟩ : GenFile)
        ∈ st.files ∧
      ¬ "T".data <:+: javaGenContent "Macro.java".data
          "set T; save SavePath".data "o".data
          ([] ++ ("T".data, [PyValue.int 300]) :: [])
          (minRowsOf ([] ++ ("T".data, [PyValue.int 300]) :: [])) 0 :=
  ⟨by decide, by decide,
   placeholder_completeness_macro "set T; save SavePath".data
     "inlet_temp = T".data "o".data [] [] "T".data [PyValue.int 300] 0
     (by decide) (by decide) (by simp)⟩

/-- Counterexample for C1 as stated: with the case template
`"inlet_temp = T"` and table `{"T": [300]}`, the generated `Case1.sim` is a
verbatim copy that still contains the placeholder `T`; no occurrence in it
was replaced by `str(300)`. -/
theorem placeholder_completeness_counterexample :
    ∃ st, process_required_templates
        (requiredTemplates "m".data "inlet_temp = T".data)
        [("T".data, [PyValue.int 300])] "o".data (fun _ => false) = .ok st ∧
      (⟨"o/Case1.sim".data, "inlet_temp = T".data⟩ : GenFile) ∈ st.files ∧
      "T".data <:+: "inlet_temp = T".data ∧
      pyStr (PyValue.int 300) = "300".data ∧
      pyReplace "T".data "300".data "inlet_temp = T".data ≠ "inlet_temp = T".data := by
  refine ⟨_, rfl, ?_, ?_, ?_, ?_⟩
  · decide
  · decide
  · decide
  · decide

/-! ### C7 and C9: what an aborted run leaves behind -/

theorem bindStep_error (a : GenAbort) (k : GenState → Except GenAbort GenState) :
    (Except.error a >>= k) = Except.error a := rfl

theorem stepRequiredTemplate_cases (params : List (Str × List PyValue))
    (out : Str) (numRows i : Nat) (wf : Str → Bool) (st : GenState)
    (t : Str × Str) :
    (stepRequiredTemplate params out numRows i wf st t =
        .error ⟨.ioError, st.files⟩ ∧
      (rowOutput params out numRows i t).files ≠ []) ∨
    stepRequiredTemplate params out numRows i wf st t =
      .ok (GenState.app st (rowOutput params out numRows i t)) := by
  by_cases h1 : strEndsWith ".sim".data t.1 = true
  · by_cases h2 : wf (simPath out numRows i) = true
    · left
      simp [simPath] at h2
      constructor
      · simp [stepRequiredTemplate, h1, h2, simPath]
      · simp [rowOutput, h1]
    · right
      rw [Bool.not_eq_true] at h2
      simp [simPath] at h2
      simp [stepRequiredTemplate, rowOutput, GenState.app, h1, h2, simPath,
        List.append_assoc]
  · by_cases h3 : strEndsWith ".java".data t.1 = true
    · by_cases h2 : wf (javaPath out t.1 numRows i) = true
      · left
        simp [javaPath, javaFileName] at h2
        constructor
        · simp [stepRequiredTemplate, h1, h3, h2]
        · simp [rowOutput, h1, h3]
      · right
        rw [Bool.not_eq_true] at h2
        simp [javaPath, javaFileName] at h2
        simp [stepRequiredTemplate, rowOutput, GenState.app, h1, h3, h2,
          javaPath, javaFileName, javaGenContent, List.append_assoc]
    · right
      simp [stepRequiredTemplate, rowOutput, GenState.app, h1, h3]

theorem foldSteps_error_io_abort (params : List (Str × List PyValue))
    (out : Str) (numRows i : Nat) (wf : Str → Bool) :
    ∀ (ts : List (Str × Str)) (st : GenState) (e : GenAbort),
      ts.foldlM (stepRequiredTemplate params out numRows i wf) st = .error e →
      e.err = .ioError ∧
      e.filesWritten <+:
        (GenState.app st (rowTotal ts params out numRows i)).files ∧
      e.filesWritten.length <
        (GenState.app st (rowTotal ts params out numRows i)).files.length := by
  intro ts
  induction ts with
  | nil =>
    intro st e h
    rw [List.foldlM_nil] at h
    cases h
  | cons t ts ih =>
    intro st e h
    rw [List.foldlM_cons] at h
    rcases stepRequiredTemplate_cases params out numRows i wf st t with
      ⟨herr, hfne⟩ | hok
    · rw [herr, bindStep_error] at h
      cases h
      refine ⟨rfl, ?_, ?_⟩
      · show st.files <+: (GenState.app st _).files
        exact List.prefix_append _ _
      · show st.files.length < (GenState.app st _).files.length
        have : (GenState.app st (rowTotal (t :: ts) params out numRows i)).files =
            st.files ++ ((rowOutput params out numRows i t).files ++
              (rowTotal ts params out numRows i).files) := by
          simp [GenState.app, rowTotal, List.append_assoc]
        rw [this]
        have h1 := length_one_le_of_ne_nil (l := (rowOutput params out numRows i t).files)
        simp only [List.length_append]
        have h2 : 1 ≤ (rowOutput params out numRows i t).files.length := by
          cases hfe : (rowOutput params out numRows i t).files with
          | nil => exact absurd hfe hfne
          | cons _ _ => simp [hfe]
        omega
    · rw [hok] at h
      have h' : ts.foldlM (stepRequiredTemplate params out numRows i wf)
          (GenState.app st (rowOutput params out numRows i t)) = .error e := h
      obtain ⟨he, hp, hl⟩ := ih _ e h'
      have hassoc : GenState.app st (rowTotal (t :: ts) params out numRows i) =
          GenState.app (GenState.app st (rowOutput params out numRows i t))
            (rowTotal ts params out numRows i) := by
        show GenState.app st (GenState.app (rowOutput params out numRows i t)
          (rowTotal ts params out numRows i)) = _
        rw [GenState_app_assoc]
      rw [hassoc]
      exact ⟨he, hp, hl⟩

theorem foldRows_error_io_abort (templates : List (Str × Str))
    (params : List (Str × List PyValue)) (out : Str) (numRows : Nat)
    (wf : Str → Bool) :
    ∀ (rows : List Nat) (st : GenState) (e : GenAbort),
      rows.foldlM (processRequiredRow templates params out numRows wf) st =
        .error e →
      e.err = .ioError ∧
      e.filesWritten <+:
        (GenState.app st (rowsTotal templates params out numRows rows)).files ∧
      e.filesWritten.length <
        (GenState.app st (rowsTotal templates params out numRows rows)).files.length := by
  intro rows
  induction rows with
  | nil =>
    intro st e h
    rw [List.foldlM_nil] at h
    cases h
  | cons r rs ih =>
    intro st e h
    rw [List.foldlM_cons] at h
    cases hstep : processRequiredRow templates params out numRows wf st r with
    | error e1 =>
      rw [hstep, bindStep_error] at h
      injection h with heq
      subst heq
      obtain ⟨he, hp, hl⟩ := foldSteps_error_io_abort params out numRows r wf
        templates st e1 hstep
      have hassoc : GenState.app st (rowsTotal templates params out numRows (r :: rs)) =
          GenState.app (GenState.app st (rowTotal templates params out numRows r))
            (rowsTotal templates params out numRows rs) := by
        show GenState.app st (GenState.app (rowTotal templates params out numRows r)
          (rowsTotal templates params out numRows rs)) = _
        rw [GenState_app_assoc]
      rw [hassoc]
      refine ⟨he, ?_, ?_⟩
      · exact hp.trans (List.prefix_append _ _)
      · simp only [GenState.app, List.length_append] at hl ⊢
        omega
    | ok st1 =>
      rw [hstep] at h
      have h' : rs.foldlM (processRequiredRow templates params out numRows wf)
          st1 = .error e := h
      -- a successful row is the pure row
      have hst1 : st1 = GenState.app st (rowTotal templates params out numRows r) := by
        have hcases : ∀ (ts : List (Str × Str)) (st0 st0' : GenState),
            ts.foldlM (stepRequiredTemplate params out numRows r wf) st0 = .ok st0' →
            st0' = GenState.app st0 (rowTotal ts params out numRows r) := by
          intro ts
          induction ts with
          | nil =>
            intro st0 st0' hok
            rw [List.foldlM_nil] at hok
            cases hok
            show st0 = GenState.app st0 ⟨[], [], []⟩
            rw [GenState_app_nil_right]
          | cons t' ts' ih' =>
            intro st0 st0' hok
            rw [List.foldlM_cons] at hok
            rcases stepRequiredTemplate_cases params out numRows r wf st0 t' with
              ⟨herr, _⟩ | hok2
            · rw [herr, bindStep_error] at hok
              cases hok
            · rw [hok2] at hok
              have := ih' _ _ hok
              rw [this]
              show _ = GenState.app st0 (GenState.app (rowOutput params out numRows r t')
                (rowTotal ts' params out numRows r))
              rw [GenState_app_assoc]
        exact hcases templates st st1 hstep
      subst hst1
      obtain ⟨he, hp, hl⟩ := ih _ e h'
      have hassoc : GenState.app st (rowsTotal templates params out numRows (r :: rs)) =
          GenState.app (GenState.app st (rowTotal templates params out numRows r))
            (rowsTotal templates params out numRows rs) := by
        show GenState.app st (GenState.app (rowTotal templates params out numRows r)
          (rowsTotal templates params out numRows rs)) = _
        rw [GenState_app_assoc]
      rw [hassoc]
      exact ⟨he, hp, hl⟩

/-! ### Characterizing custom-template runs -/

/-- The generated file name for one auxiliary template and case. -/
def custFileName (dn : Str) (numRows i : Nat) : Str :=
  (splitext dn).1 ++ "_".data ++ caseNumber numRows i ++ (splitext dn).2

/-- The generated path for one auxiliary template and case. -/
def custPath (out dn : Str) (numRows i : Nat) : Str :=
  normalize_path (out ++ "/".data ++ custFileName dn numRows i)

/-- The generated content for one auxiliary template and case. -/
def custGenContent (dn tc : Str) (rules : List (Str × Str))
    (numRows i : Nat) : Str :=
  customContent dn (custFileName dn numRows i) (caseNumber numRows i) rules tc

/-- Pointwise concatenation of custom-run states. -/
def CustState.app (a b : CustState) : CustState :=
  ⟨a.files ++ b.files, a.generated_files ++ b.generated_files⟩

theorem CustState_app_assoc (a b c : CustState) :
    CustState.app (CustState.app a b) c = CustState.app a (CustState.app b c) := by
  simp [CustState.app, List.append_assoc]

theorem CustState_app_nil_left (a : CustState) :
    CustState.app ⟨[], []⟩ a = a := by
  simp [CustState.app]

theorem CustState_app_nil_right (a : CustState) :
    CustState.app a ⟨[], []⟩ = a := by
  simp [CustState.app]

/-- What one auxiliary template contributes to case `i`. -/
def custRowOutput (out : Str) (rules : List (Str × Str)) (numRows i : Nat)
    (t : Str × Str) : CustState :=
  ⟨[⟨custPath out t.1 numRows i, custGenContent t.1 t.2 rules numRows i⟩],
   [custPath out t.1 numRows i]⟩

/-- What the whole auxiliary template set contributes to case `i`. -/
def custRowTotal (templates : List (Str × Str)) (out : Str)
    (rules : List (Str × Str)) (numRows i : Nat) : CustState :=
  match templates with
  | [] => ⟨[], []⟩
  | t :: ts =>
    CustState.app (custRowOutput out rules numRows i t)
      (custRowTotal ts out rules numRows i)

/-- What a list of case indices contributes to a custom run. -/
def custRowsTotal (templates : List (Str × Str)) (out : Str)
    (rules : List (Str × Str)) (numRows : Nat) (rows : List Nat) : CustState :=
  match rows with
  | [] => ⟨[], []⟩
  | r :: rs =>
    CustState.app (custRowTotal templates out rules numRows r)
      (custRowsTotal templates out rules numRows rs)

theorem bindCust_error (a : GenAbort) (k : CustState → Except GenAbort CustState) :
    (Except.error a >>= k) = Except.error a := rfl

theorem stepCustomTemplate_cases (out : Str) (rules : List (Str × Str))
    (numRows i : Nat) (wf : Str → Bool) (st : CustState) (t : Str × Str) :
    stepCustomTemplate out rules numRows i wf st t =
        .error ⟨.ioError, st.files⟩ ∨
    stepCustomTemplate out rules numRows i wf st t =
      .ok (CustState.app st (custRowOutput out rules numRows i t)) := by
  by_cases h2 : wf (custPath out t.1 numRows i) = true
  · left
    simp [custPath, custFileName] at h2
    simp [stepCustomTemplate, h2]
  · right
    rw [Bool.not_eq_true] at h2
    simp [custPath, custFileName] at h2
    simp [stepCustomTemplate, custRowOutput, CustState.app, h2, custPath,
      custFileName, custGenContent, List.append_assoc]

theorem stepCustomTemplate_ok (out : Str) (rules : List (Str × Str))
    (numRows i : Nat) (st : CustState) (t : Str × Str) :
    stepCustomTemplate out rules numRows i (fun _ => false) st t =
      .ok (CustState.app st (custRowOutput out rules numRows i t)) := by
  simp [stepCustomTemplate, custRowOutput, CustState.app, custPath,
    custFileName, custGenContent, List.append_assoc]

theorem processCustomRow_ok (templates : List (Str × Str)) (out : Str)
    (rules : List (Str × Str)) (numRows : Nat) :
    ∀ (i : Nat) (st : CustState),
      processCustomRow templates out rules numRows (fun _ => false) st i =
        .ok (CustState.app st (custRowTotal templates out rules numRows i)) := by
  induction templates with
  | nil =>
    intro i st
    show ([] : List (Str × Str)).foldlM
        (stepCustomTemplate out rules numRows i (fun _ => false)) st = _
    rw [List.foldlM_nil]
    show Except.ok st = _
    rw [show custRowTotal [] out rules numRows i = (⟨[], []⟩ : CustState) from rfl,
      CustState_app_nil_right]
  | cons t ts ih =>
    intro i st
    show (t :: ts).foldlM
        (stepCustomTemplate out rules numRows i (fun _ => false)) st = _
    rw [List.foldlM_cons, stepCustomTemplate_ok]
    have hassoc : CustState.app st (custRowTotal (t :: ts) out rules numRows i) =
        CustState.app (CustState.app st (custRowOutput out rules numRows i t))
          (custRowTotal ts out rules numRows i) := by
      show CustState.app st (CustState.app (custRowOutput out rules numRows i t)
        (custRowTotal ts out rules numRows i)) = _
      rw [CustState_app_assoc]
    rw [hassoc]
    exact ih i _
  
theorem custFoldRows_ok (templates : List (Str × Str)) (out : Str)
    (rules : List (Str × Str)) (numRows : Nat) :
    ∀ (rows : List Nat) (st : CustState),
      rows.foldlM (processCustomRow templates out rules numRows
          (fun _ => false)) st =
        .ok (CustState.app st (custRowsTotal templates out rules numRows rows)) := by
  intro rows
  induction rows with
  | nil =>
    intro st
    rw [List.foldlM_nil]
    show Except.ok st = _
    rw [show custRowsTotal templates out rules numRows [] = (⟨[], []⟩ : CustState)
      from rfl, CustState_app_nil_right]
  | cons r rs ih =>
    intro st
    rw [List.foldlM_cons, processCustomRow_ok]
    have hassoc : CustState.app st (custRowsTotal templates out rules numRows (r :: rs)) =
        CustState.app (CustState.app st (custRowTotal templates out rules numRows r))
          (custRowsTotal templates out rules numRows rs) := by
      show CustState.app st (CustState.app (custRowTotal templates out rules numRows r)
        (custRowsTotal templates out rules numRows rs)) = _
      rw [CustState_app_assoc]
    rw [hassoc]
    exact ih _

/-- A custom-template run with no write failures over a nonempty table
succeeds and produces exactly the per-case outputs of all case indices. -/
theorem process_custom_templates_nonempty_ok (templates : List (Str × Str))
    (params : List (Str × List PyValue)) (out : Str)
    (rules : List (Str × Str)) (hne : params ≠ []) :
    process_custom_templates templates params out rules (fun _ => false) =
      .ok (custRowsTotal templates out rules (minRowsOf params)
        (List.range (minRowsOf params))) := by
  match params, hne with
  | p0 :: rest, _ =>
    show (List.range (minRows p0 rest)).foldlM
        (processCustomRow templates out rules (minRows p0 rest)
          (fun _ => false)) ⟨[], []⟩ = _
    rw [custFoldRows_ok, CustState_app_nil_left]
    rfl

theorem custFoldSteps_error_io (out : Str) (rules : List (Str × Str))
    (numRows i : Nat) (wf : Str → Bool) :
    ∀ (ts : List (Str × Str)) (st : CustState) (e : GenAbort),
      ts.foldlM (stepCustomTemplate out rules numRows i wf) st = .error e →
      e.err = .ioError := by
  intro ts
  induction ts with
  | nil =>
    intro st e h
    rw [List.foldlM_nil] at h
    cases h
  | cons t ts ih =>
    intro st e h
    rw [List.foldlM_cons] at h
    rcases stepCustomTemplate_cases out rules numRows i wf st t with herr | hok
    · rw [herr, bindCust_error] at h
      injection h with heq
      subst heq
      rfl
    · rw [hok] at h
      exact ih _ e h

theorem custFoldRows_error_io (templates : List (Str × Str)) (out : Str)
    (rules : List (Str × Str)) (numRows : Nat) (wf : Str → Bool) :
    ∀ (rows : List Nat) (st : CustState) (e : GenAbort),
      rows.foldlM (processCustomRow templates out rules numRows wf) st =
        .error e → e.err = .ioError := by
  intro rows
  induction rows with
  | nil =>
    intro st e h
    rw [List.foldlM_nil] at h
    cases h
  | cons r rs ih =>
    intro st e h
    rw [List.foldlM_cons] at h
    cases hstep : processCustomRow templates out rules numRows wf st r with
    | error e1 =>
      rw [hstep, bindCust_error] at h
      injection h with heq
      subst heq
      exact custFoldSteps_error_io out rules numRows r wf templates st e1 hstep
    | ok st1 =>
      rw [hstep] at h
      exact ih _ e h

/-- C7 (amended).  An I/O failure while writing one case's file is not
caught by `process_required_templates`: the run ends in an uncaught
`OSError` whose surviving files are a strict prefix of what a failure-free
run would have produced — generation of the failing file and of everything
after it (including all remaining cases) is aborted, and no file lists are
returned. -/
theorem required_write_failure_aborts (templates : List (Str × Str))
    (params : List (Str × List PyValue)) (out : Str) (wf : Str → Bool)
    (e : GenAbort) (hne : params ≠ [])
    (herr : process_required_templates templates params out wf = .error e) :
    e.err = .ioError ∧
    ∃ full, process_required_templates templates params out (fun _ => false) =
        .ok full ∧
      e.filesWritten <+: full.files ∧
      e.filesWritten.length < full.files.length := by
  match params, hne with
  | p0 :: rest, _ =>
    have h0 : (List.range (minRows p0 rest)).foldlM
        (processRequiredRow templates (p0 :: rest) out (minRows p0 rest) wf)
        ⟨[], [], []⟩ = .error e := herr
    obtain ⟨he, hp, hl⟩ := foldRows_error_io_abort templates (p0 :: rest) out
      (minRows p0 rest) wf _ _ _ h0
    rw [GenState_app_nil_left] at hp hl
    exact ⟨he, _, process_required_templates_ok templates p0 rest out, hp, hl⟩

/-- Witness for C7 (amended): two-row table, the write of `Case1.sim`
fails; only the already-written macro of case 1 survives, out of the four
files of a failure-free run. -/
theorem required_write_failure_aborts_witness :
    (([("T".data, [PyValue.int 1, PyValue.int 2])] : List (Str × List PyValue))
      ≠ []) ∧
    ∃ e, process_required_templates (requiredTemplates "m".data "c".data)
        [("T".data, [PyValue.int 1, PyValue.int 2])] "o".data
        (fun path => path == "o/Case1.sim".data) = .error e ∧
      e.err = .ioError ∧
      ∃ full, process_required_templates (requiredTemplates "m".data "c".data)
          [("T".data, [PyValue.int 1, PyValue.int 2])] "o".data
          (fun _ => false) = .ok full ∧
        e.filesWritten <+: full.files ∧
        e.filesWritten.length < full.files.length := by
  refine ⟨by simp, ?_⟩
  refine ⟨_, rfl, ?_⟩
  exact required_write_failure_aborts (requiredTemplates "m".data "c".data)
    [("T".data, [PyValue.int 1, PyValue.int 2])] "o".data
    (fun path => path == "o/Case1.sim".data) _ (by simp) rfl

/-- Counterexample for C7 as stated: with two cases and a file system that
refuses the write of `Case1.sim`, the function does not continue with the
remaining case — it aborts with one file written, where a failure-free run
writes four. -/
theorem required_write_failure_counterexample :
    ∃ e, process_required_templates (requiredTemplates "m".data "c".data)
        [("T".data, [PyValue.int 1, PyValue.int 2])] "o".data
        (fun path => path == "o/Case1.sim".data) = .error e ∧
      e.err = .ioError ∧
      e.filesWritten.length = 1 ∧
      ∃ full, process_required_templates (requiredTemplates "m".data "c".data)
          [("T".data, [PyValue.int 1, PyValue.int 2])] "o".data
          (fun _ => false) = .ok full ∧ full.files.length = 4 := by
  refine ⟨_, rfl, ?_, ?_, ?_⟩
  · decide
  · decide
  · exact ⟨_, rfl, by decide⟩

/-- C9.  Called on an empty parameter mapping, both instantiation functions
hit the `ValueError` from `min()` over an empty sequence before writing any
file; on a nonempty mapping that branch is unreachable — any abort is an
I/O error. -/
theorem empty_table_value_error :
    (∀ (templates : List (Str × Str)) (out : Str) (wf : Str → Bool),
      process_required_templates templates [] out wf =
        .error ⟨.valueError, []⟩) ∧
    (∀ (templates : List (Str × Str)) (out : Str) (rules : List (Str × Str))
        (wf : Str → Bool),
      process_custom_templates templates [] out rules wf =
        .error ⟨.valueError, []⟩) ∧
    (∀ (templates : List (Str × Str)) (params : List (Str × List PyValue))
        (out : Str) (wf : Str → Bool) (e : GenAbort), params ≠ [] →
      process_required_templates templates params out wf = .error e →
      e.err = .ioError) ∧
    (∀ (templates : List (Str × Str)) (params : List (Str × List PyValue))
        (out : Str) (rules : List (Str × Str)) (wf : Str → Bool)
        (e : GenAbort), params ≠ [] →
      process_custom_templates templates params out rules wf = .error e →
      e.err = .ioError) := by
  refine ⟨fun _ _ _ => rfl, fun _ _ _ _ => rfl, ?_, ?_⟩
  · intro templates params out wf e hne herr
    match params, hne with
    | p0 :: rest, _ =>
      have h0 : (List.range (minRows p0 rest)).foldlM
          (processRequiredRow templates (p0 :: rest) out (minRows p0 rest) wf)
          ⟨[], [], []⟩ = .error e := herr
      exact (foldRows_error_io_abort templates (p0 :: rest) out
        (minRows p0 rest) wf _ _ _ h0).1
  · intro templates params out rules wf e hne herr
    match params, hne with
    | p0 :: rest, _ =>
      have h0 : (List.range (minRows p0 rest)).foldlM
          (processCustomRow templates out rules (minRows p0 rest) wf)
          ⟨[], []⟩ = .error e := herr
      exact custFoldRows_error_io templates out rules (minRows p0 rest) wf _ _ _ h0

/-- Witness for C9: concrete empty-table aborts, and concrete I/O aborts on
a one-row table with a file system that refuses every write. -/
theorem empty_table_value_error_witness :
    process_required_templates [] [] "o".data (fun _ => false) =
      .error ⟨.valueError, []⟩ ∧
    process_custom_templates [] [] "o".data [] (fun _ => false) =
      .error ⟨.valueError, []⟩ ∧
    (∃ e, process_required_templates (requiredTemplates "m".data "c".data)
        [("T".data, [PyValue.int 1])] "o".data (fun _ => true) = .error e ∧
      e.err = .ioError) ∧
    (∃ e, process_custom_templates [("Report.txt".data, "x".data)]
        [("T".data, [PyValue.int 1])] "o".data [] (fun _ => true) = .error e ∧
      e.err = .ioError) := by
  refine ⟨empty_table_value_error.1 [] "o".data (fun _ => false),
    empty_table_value_error.2.1 [] "o".data [] (fun _ => false), ?_, ?_⟩
  · refine ⟨_, rfl, ?_⟩
    exact empty_table_value_error.2.2.1 (requiredTemplates "m".data "c".data)
      [("T".data, [PyValue.int 1])] "o".data (fun _ => true) _ (by simp) rfl
  · refine ⟨_, rfl, ?_⟩
    exact empty_table_value_error.2.2.2 [("Report.txt".data, "x".data)]
      [("T".data, [PyValue.int 1])] "o".data [] (fun _ => true) _ (by simp) rfl

/-! ### C8: the implicit case-name rule is not overridable -/

theorem customContent_caseName_rule_noop (dn fn cn r : Str)
    (others : List (Str × Str)) (tc : Str)
    (hno : ¬ "CaseName".data <:+: pyReplace "CaseName".data cn tc) :
    customContent dn fn cn (("CaseName".data, r) :: others) tc =
      customContent dn fn cn others tc := by
  have hfold : List.foldl (fun (c : Str) (rr : Str × Str) =>
      let n := if rr.2 = "CASE_NUMBER".data then cn else rr.2
      pyReplace rr.1 n c) (pyReplace "CaseName".data cn tc)
      (("CaseName".data, r) :: others) =
    List.foldl (fun (c : Str) (rr : Str × Str) =>
      let n := if rr.2 = "CASE_NUMBER".data then cn else rr.2
      pyReplace rr.1 n c) (pyReplace "CaseName".data cn tc) others := by
    rw [List.foldl_cons]
    congr 1
    show pyReplace "CaseName".data (if r = "CASE_NUMBER".data then cn else r)
      (pyReplace "CaseName".data cn tc) = _
    exact pyReplace_of_no_occurrence "CaseName".data _ (by decide) _ hno
  show pyReplace ("template_".data ++ (splitext dn).1) (splitext fn).1
      (List.foldl (fun (c : Str) (rr : Str × Str) =>
        let n := if rr.2 = "CASE_NUMBER".data then cn else rr.2
        pyReplace rr.1 n c) (pyReplace "CaseName".data cn tc)
        (("CaseName".data, r) :: others)) =
    pyReplace ("template_".data ++ (splitext dn).1) (splitext fn).1
      (List.foldl (fun (c : Str) (rr : Str × Str) =>
        let n := if rr.2 = "CASE_NUMBER".data then cn else rr.2
        pyReplace rr.1 n c) (pyReplace "CaseName".data cn tc) others)
  rw [hfold]

theorem custRowTotal_caseName_rule_noop (out r : Str)
    (others : List (Str × Str)) (numRows i : Nat) :
    ∀ templates : List (Str × Str),
      (∀ t ∈ templates, ¬ "CaseName".data <:+:
        pyReplace "CaseName".data (caseNumber numRows i) t.2) →
      custRowTotal templates out (("CaseName".data, r) :: others) numRows i =
        custRowTotal templates out others numRows i := by
  intro templates
  induction templates with
  | nil => intro _; rfl
  | cons t ts ih =>
    intro hno
    show CustState.app (custRowOutput out (("CaseName".data, r) :: others) numRows i t) _ =
      CustState.app (custRowOutput out others numRows i t) _
    rw [ih (fun t' ht' => hno t' (List.mem_cons_of_mem _ ht'))]
    congr 1
    unfold custRowOutput custGenContent
    rw [customContent_caseName_rule_noop _ _ _ _ _ _
      (hno t (List.mem_cons_self _ _))]

theorem custRowsTotal_caseName_rule_noop (templates : List (Str × Str))
    (out r : Str) (others : List (Str × Str)) (numRows : Nat) :
    ∀ rows : List Nat,
      (∀ i ∈ rows, ∀ t ∈ templates, ¬ "CaseName".data <:+:
        pyReplace "CaseName".data (caseNumber numRows i) t.2) →
      custRowsTotal templates out (("CaseName".data, r) :: others) numRows rows =
        custRowsTotal templates out others numRows rows := by
  intro rows
  induction rows with
  | nil => intro _; rfl
  | cons rr rs ih =>
    intro hno
    show CustState.app (custRowTotal templates out (("CaseName".data, r) :: others)
        numRows rr) _ = _
    rw [custRowTotal_caseName_rule_noop out r others numRows rr templates
      (hno rr (List.mem_cons_self _ _)),
      ih (fun i hi => hno i (List.mem_cons_of_mem _ hi))]
    rfl

/-- C8 (amended).  The rule set always carries the implicit case-name entry,
but it is not overridable: `process_custom_templates` replaces `CaseName` by
the case identifier unconditionally before applying the configured rules, so
a caller-supplied rule for `CaseName` (with any replacement text `r`) has no
effect on the generated files whenever the case-name placeholder does not
reoccur in the substituted content — the run with the configured rule equals
the run without it. -/
theorem custom_caseName_not_overridable (templates : List (Str × Str))
    (params : List (Str × List PyValue)) (out r : Str)
    (others : List (Str × Str)) (hne : params ≠ [])
    (hno : ∀ i, i < minRowsOf params → ∀ t ∈ templates,
      ¬ "CaseName".data <:+: pyReplace "CaseName".data
        (caseNumber (minRowsOf params) i) t.2) :
    process_custom_templates templates params out
        (("CaseName".data, r) :: others) (fun _ => false) =
      process_custom_templates templates params out others (fun _ => false) := by
  rw [process_custom_templates_nonempty_ok templates params out _ hne,
    process_custom_templates_nonempty_ok templates params out others hne,
    custRowsTotal_caseName_rule_noop templates out r others (minRowsOf params)
      (List.range (minRowsOf params))
      (fun i hi => hno i (List.mem_range.mp hi))]

/-- Witness for C8 (amended) on one auxiliary template and one case: rules
produced by `get_custom_templates` from the override `{"CaseName": "FOO"}`
behave exactly like no `CaseName` rule at all. -/
theorem custom_caseName_not_overridable_witness :
    (([("T".data, [PyValue.int 300])] : List (Str × List PyValue)) ≠ []) ∧
    (∀ i, i < minRowsOf [("T".data, [PyValue.int 300])] →
      ∀ t ∈ [("Report.txt".data, "Name: CaseName".data)],
      ¬ "CaseName".data <:+: pyReplace "CaseName".data
        (caseNumber (minRowsOf [("T".data, [PyValue.int 300])]) i)
        (t : Str × Str).2) ∧
    process_custom_templates [("Report.txt".data, "Name: CaseName".data)]
        [("T".data, [PyValue.int 300])] "o".data
        (("CaseName".data, "FOO".data) :: []) (fun _ => false) =
      process_custom_templates [("Report.txt".data, "Name: CaseName".data)]
        [("T".data, [PyValue.int 300])] "o".data [] (fun _ => false) :=
  ⟨by simp, by decide,
   custom_caseName_not_overridable [("Report.txt".data, "Name: CaseName".data)]
     [("T".data, [PyValue.int 300])] "o".data "FOO".data [] (by simp) (by decide)⟩

/-- Counterexample for C8 as stated: with the override rule
`{"CaseName": "FOO"}` (kept by `get_custom_templates`'s `dict.update`), the
generated auxiliary file still carries the case identifier, not `FOO`, at
the occurrence of `CaseName`. -/
theorem custom_caseName_override_counterexample :
    (get_custom_templates [("Report.txt".data, "Name: CaseName".data)]
      (some [("CaseName".data, "FOO".data)])).2 =
      [("CaseName".data, "FOO".data)] ∧
    ∃ st, process_custom_templates [("Report.txt".data, "Name: CaseName".data)]
        [("T".data, [PyValue.int 300])] "o".data
        [("CaseName".data, "FOO".data)] (fun _ => false) = .ok st ∧
      (⟨"o/Report_Case1.txt".data, "Name: Case1".data⟩ : GenFile) ∈ st.files ∧
      ¬ "FOO".data <:+: "Name: Case1".data ∧
      "Name: Case1".data ≠ "Name: FOO".data := by
  refine ⟨by decide, _, rfl, ?_, ?_, ?_⟩
  · decide
  · decide
  · decide

/-! ### C5 and C6: the batch executor -/

theorem execute_case_beq (o : JobOutcome) :
    execute_case o = (o == JobOutcome.exits 0) := by
  cases o with
  | exits c =>
    by_cases hc : c = 0 <;> simp [execute_case, beq_iff_eq, hc]
  | raises => simp [execute_case, beq_iff_eq]

/-- C5.  With matched input lists every pair is submitted as one job; a job
that raises is recorded as a failure for that case only and never aborts the
siblings (`execute_case` catches it and returns `False`); the final success
count equals the number of jobs whose subprocess exit code is `0`, computed
over the completed jobs in any completion order; and with exactly one
failing job among `K` the count is `K - 1`.  The embedding is a total
function: `process_sim_command` returns on partial failure instead of
raising. -/
theorem batch_execution_partial_failure (sim_files java_files : List Str)
    (outcome : Str → Str → JobOutcome)
    (hlen : sim_files.length = java_files.length)
    (completed : List JobOutcome)
    (hperm : completed.Perm
      ((sim_files.zip java_files).map (fun j => outcome j.1 j.2))) :
    (process_sim_command sim_files java_files outcome).launched =
      sim_files.zip java_files ∧
    (process_sim_command sim_files java_files outcome).logDirCreated = true ∧
    (process_sim_command sim_files java_files outcome).successCount =
      (completed.filter (fun o => execute_case o)).length ∧
    (process_sim_command sim_files java_files outcome).successCount =
      (completed.filter (fun o => o == JobOutcome.exits 0)).length ∧
    ((completed.filter (fun o => !(execute_case o))).length = 1 →
      (process_sim_command sim_files java_files outcome).successCount =
        sim_files.length - 1) := by
  have hrep : process_sim_command sim_files java_files outcome =
      ⟨sim_files.zip java_files, true,
       ((sim_files.zip java_files).filter
         (fun j => execute_case (outcome j.1 j.2))).length⟩ := by
    unfold process_sim_command
    rw [if_neg (fun hc => hc hlen)]
  have hcount : (completed.filter (fun o => execute_case o)).length =
      ((sim_files.zip java_files).filter
        (fun j => execute_case (outcome j.1 j.2))).length := by
    rw [← List.countP_eq_length_filter, ← List.countP_eq_length_filter]
    rw [hperm.countP_eq]
    rw [List.countP_eq_length_filter, List.countP_eq_length_filter]
    rw [List.filter_map]
    rw [List.length_map]
    rfl
  refine ⟨by rw [hrep], by rw [hrep], ?_, ?_, ?_⟩
  · rw [hrep]
    exact hcount.symm
  · rw [hrep]
    show ((sim_files.zip java_files).filter
        (fun j => execute_case (outcome j.1 j.2))).length =
      (completed.filter (fun o => o == JobOutcome.exits 0)).length
    rw [← hcount]
    congr 1
    exact List.filter_congr (fun o _ => execute_case_beq o)
  · intro hone
    rw [hrep]
    show ((sim_files.zip java_files).filter
      (fun j => execute_case (outcome j.1 j.2))).length = sim_files.length - 1
    rw [← hcount]
    have hsplit : completed.length =
        (completed.filter (fun o => execute_case o)).length +
        (completed.filter (fun o => !(execute_case o))).length :=
      List.length_eq_length_filter_add _
    have hclen : completed.length = sim_files.length := by
      rw [hperm.length_eq, List.length_map, List.length_zip, ← hlen]
      omega
    omega

/-- Witness for C5: three jobs, the middle one exits nonzero, completion in
a different order than submission; the success count is `2 = 3 - 1`. -/
theorem batch_execution_partial_failure_witness :
    ("a".data :: "b".data :: "c".data :: []).length =
      ("x".data :: "y".data :: "z".data :: []).length ∧
    (JobOutcome.exits 1 :: JobOutcome.exits 0 :: JobOutcome.exits 0 :: []).Perm
      ((("a".data :: "b".data :: "c".data :: []).zip
        ("x".data :: "y".data :: "z".data :: [])).map
        (fun j => if j.1 == "b".data then JobOutcome.exits 1
          else JobOutcome.exits 0)) ∧
    (process_sim_command ("a".data :: "b".data :: "c".data :: [])
      ("x".data :: "y".data :: "z".data :: [])
      (fun s _ => if s == "b".data then JobOutcome.exits 1
        else JobOutcome.exits 0)).successCount = 2 := by
  refine ⟨by decide, by decide, ?_⟩
  have h := batch_execution_partial_failure
    ("a".data :: "b".data :: "c".data :: [])
    ("x".data :: "y".data :: "z".data :: [])
    (fun s _ => if s == "b".data then JobOutcome.exits 1 else JobOutcome.exits 0)
    (by decide)
    (JobOutcome.exits 1 :: JobOutcome.exits 0 :: JobOutcome.exits 0 :: [])
    (by decide)
  have h5 := h.2.2.2.2 (by decide)
  rw [h5]
  decide

/-- C6.  On a length mismatch between the two file lists the executor treats
it as fatal for the execution phase only: it submits no job, creates no log
directory (hence no per-case log entries), records no successes, and returns
normally (the embedding is a total function returning this report, matching
the Python `return` with no exception), so later auxiliary-template
processing can proceed. -/
theorem batch_mismatch_no_execution (sim_files java_files : List Str)
    (outcome : Str → Str → JobOutcome)
    (hne : sim_files.length ≠ java_files.length) :
    process_sim_command sim_files java_files outcome = ⟨[], false, 0⟩ := by
  unfold process_sim_command
  rw [if_pos hne]

/-- Witness for C6: two sim files against one java file. -/
theorem batch_mismatch_no_execution_witness :
    ("a".data :: "b".data :: []).length ≠ ("x".data :: []).length ∧
    process_sim_command ("a".data :: "b".data :: []) ("x".data :: [])
      (fun _ _ => JobOutcome.exits 0) = ⟨[], false, 0⟩ :=
  ⟨by decide,
   batch_mismatch_no_execution ("a".data :: "b".data :: []) ("x".data :: [])
     (fun _ _ => JobOutcome.exits 0) (by decide)⟩

/-! ### C10: the output-folder helper -/

/-- C10.  `CreatOutputFolder` never falls back to the advertised default
directory: with an empty path the local `output_path` is unassigned, the
directory-creation attempt raises, the `except` swallows it and the function
returns `None` with no directory created — the default is only logged.  Only
a nonempty path yields the absolute path of a created (`exist_ok`)
directory; if even that creation fails, the result is again `None`. -/
theorem creat_output_folder_behavior (p d : Str) (abspath : Str → Str)
    (mkdirOk : Str → Bool) :
    (p = [] → CreatOutputFolder p d abspath mkdirOk = ⟨none, [], d⟩) ∧
    (p ≠ [] → mkdirOk (abspath p) = true →
      CreatOutputFolder p d abspath mkdirOk =
        ⟨some (abspath p), [abspath p], d⟩) ∧
    (p ≠ [] → mkdirOk (abspath p) = false →
      CreatOutputFolder p d abspath mkdirOk = ⟨none, [], d⟩) := by
  refine ⟨?_, ?_, ?_⟩
  · intro h1
    subst h1
    rfl
  · intro h1 h2
    unfold CreatOutputFolder
    rw [if_pos h1, if_pos h2]
  · intro h1 h2
    simp [CreatOutputFolder, h1, h2]

/-- Witness for C10: the empty path yields `None` and creates nothing; the
path `"out"` is created and returned. -/
theorem creat_output_folder_behavior_witness :
    CreatOutputFolder [] "/d".data (fun s => s) (fun _ => true) =
      ⟨none, [], "/d".data⟩ ∧
    CreatOutputFolder "out".data "/d".data (fun s => s) (fun _ => true) =
      ⟨some "out".data, ["out".data], "/d".data⟩ :=
  ⟨(creat_output_folder_behavior [] "/d".data (fun s => s) (fun _ => true)).1 rfl,
   (creat_output_folder_behavior "out".data "/d".data (fun s => s)
     (fun _ => true)).2.1 (by decide) rfl⟩
